import Mathlib

/-! Slashing engine of the stake keeper (`x/stake/keeper/slash.go`).

A shallow embedding of `Keeper.Slash`, `Keeper.slashUnbondingDelegation` and
`Keeper.slashRedelegation`, with the stores they read and write made explicit as a
`State` value that is threaded through every call.

A Go `panic` is a distinguished result (`Outcome.panicked`) that carries the content of
the stores at the moment of the abort, so that "aborts before modifying anything" is a
statement about that content.
-/

namespace Stake

/-! ## Decimal and integer primitives -/

/-- Modelled from the spec: the decimal type `sdk.Dec` (its file `types/decimal.go` is not
among the sources). A fixed-point decimal: `raw` is the value scaled by `Dec.unit`. The
255-bit range check of the big-integer types is left out: integers are unbounded. -/
structure Dec where
  raw : Int
  deriving DecidableEq, Repr

/-- Modelled from the spec: the scale of the fixed-point representation. The spec gives
no number of decimal places; ten are taken. -/
def Dec.unit : Int := 10000000000

/-- Modelled from the spec: chop the scale off a scaled integer, rounding half up. -/
def chopPrecisionAndRound (x : Int) : Int := (2 * x + Dec.unit) / (2 * Dec.unit)

/-- Modelled from the spec: `sdk.ZeroDec()`. -/
def ZeroDec : Dec := ⟨0⟩

/-- Modelled from the spec: `sdk.NewDec(i)`, the decimal of an `int64`. -/
def NewDec (i : Int) : Dec := ⟨i * Dec.unit⟩

/-- Modelled from the spec: `sdk.NewDecFromInt(i)`, the decimal of an `sdk.Int`. -/
def NewDecFromInt (i : Int) : Dec := ⟨i * Dec.unit⟩

/-- Modelled from the spec: `Dec.LT`. -/
def Dec.LT (a b : Dec) : Bool := decide (a.raw < b.raw)

/-- Modelled from the spec: `Dec.GT`. -/
def Dec.GT (a b : Dec) : Bool := decide (b.raw < a.raw)

/-- Modelled from the spec: `Dec.IsZero`. -/
def Dec.IsZero (a : Dec) : Bool := decide (a.raw = 0)

/-- Modelled from the spec: `Dec.Sub`, exact. -/
def Dec.Sub (a b : Dec) : Dec := ⟨a.raw - b.raw⟩

/-- Modelled from the spec: `Dec.Add`, exact (used to state sums of returned amounts). -/
def Dec.Add (a b : Dec) : Dec := ⟨a.raw + b.raw⟩

/-- Modelled from the spec: `Dec.Mul`, the product brought back to the scale. -/
def Dec.Mul (a b : Dec) : Dec := ⟨chopPrecisionAndRound (a.raw * b.raw)⟩

/-- Modelled from the spec: `Dec.RoundInt`, round half up to an integer. -/
def Dec.RoundInt (a : Dec) : Int := chopPrecisionAndRound a.raw

/-- Modelled from the spec: `sdk.MinDec`. -/
def MinDec (d1 d2 : Dec) : Dec := if d1.LT d2 then d1 else d2

/-- Modelled from the spec: `sdk.MinInt`. -/
def MinInt (i1 i2 : Int) : Int := if i1 < i2 then i1 else i2

/-- Order of decimals: the order of their scaled integers. -/
instance : LE Dec := ⟨fun a b => a.raw ≤ b.raw⟩

/-- Strict order of decimals. -/
instance : LT Dec := ⟨fun a b => a.raw < b.raw⟩

instance (a b : Dec) : Decidable (a ≤ b) := inferInstanceAs (Decidable (a.raw ≤ b.raw))

instance (a b : Dec) : Decidable (a < b) := inferInstanceAs (Decidable (a.raw < b.raw))

/-- Sum of a list of decimals. -/
def sumDec : List Dec → Dec
  | [] => ZeroDec
  | d :: ds => d.Add (sumDec ds)

/-! ## Data model -/

/-- A consensus public key; only equality is used. -/
abbrev CryptoPubKey := Nat

/-- An account (delegator) address; only equality is used. -/
abbrev AccAddress := Nat

/-- A validator operator address; only equality is used. -/
abbrev ValAddress := Nat

/-- Bonding status of a validator. -/
inductive BondStatus where
  | Unbonded
  | Unbonding
  | Bonded
  deriving DecidableEq, Repr

/-- An amount of one denomination: `sdk.Coin`. -/
structure Coin where
  Denom : String
  Amount : Int
  deriving DecidableEq, Repr

/-- Modelled from the spec: `types.Validator` (section 3). -/
structure Validator where
  Operator : ValAddress
  PubKey : CryptoPubKey
  Jailed : Bool
  Status : BondStatus
  Tokens : Dec
  deriving DecidableEq, Repr

/-- Modelled from the spec: `types.Pool` (section 3). -/
structure Pool where
  LooseTokens : Dec
  deriving DecidableEq, Repr

/-- Modelled from the spec: `types.UnbondingDelegation`; times are integer timestamps. -/
structure UnbondingDelegation where
  DelegatorAddr : AccAddress
  ValidatorAddr : ValAddress
  CreationHeight : Int
  MinTime : Int
  InitialBalance : Coin
  Balance : Coin
  deriving DecidableEq, Repr

/-- Modelled from the spec: `types.Redelegation`. -/
structure Redelegation where
  DelegatorAddr : AccAddress
  ValidatorSrcAddr : ValAddress
  ValidatorDstAddr : ValAddress
  CreationHeight : Int
  MinTime : Int
  InitialBalance : Coin
  Balance : Coin
  SharesDst : Dec
  deriving DecidableEq, Repr

/-- Modelled from the spec: `types.Delegation`. -/
structure Delegation where
  DelegatorAddr : AccAddress
  ValidatorAddr : ValAddress
  Shares : Dec
  deriving DecidableEq, Repr

/-- The stores behind the keeper. -/
structure State where
  validators : List Validator
  pool : Pool
  unbondingDelegations : List UnbondingDelegation
  redelegations : List Redelegation
  delegations : List Delegation
  deriving DecidableEq, Repr

/-- The part of `sdk.Context` the slashing code reads: `ctx.BlockHeight()` and
`ctx.BlockHeader().Time`. -/
structure Context where
  BlockHeight : Int
  Time : Int
  deriving DecidableEq, Repr

/-- Why a call aborted. -/
inductive PanicCause where
  | negativeSlashFactor
  | unbondedValidator
  | futureInfraction
  | unbondError (msg : String)
  | validatorNotFound
  deriving DecidableEq, Repr

/-- Result of a call that may panic: either it returns a value with the new stores, or it
aborts, leaving the stores as they were at the abort. -/
inductive Outcome (α : Type) where
  | returned (a : α) (s : State)
  | panicked (cause : PanicCause) (s : State)
  deriving DecidableEq, Repr

/-- The stores a call leaves behind, whether it returned or aborted. -/
def Outcome.state {α : Type} : Outcome α → State
  | .returned _ s => s
  | .panicked _ s => s

/-- What `Slash` writes to the logger when it returns: the warning for a validator that
does not exist, or the final line with the burned amount. -/
inductive SlashReport where
  | ignored
  | slashed (tokensToBurn : Dec)
  deriving DecidableEq, Repr

/-! ## Store operations -/

/-- Write `x` over the first record that `same` selects, or append it. -/
def storePut {α : Type} (same : α → Bool) (x : α) : List α → List α
  | [] => [x]
  | y :: ys => if same y then x :: ys else y :: storePut same x ys

/-- Modelled from the spec: `Keeper.GetValidatorByPubKey`. -/
def GetValidatorByPubKey (s : State) (pubkey : CryptoPubKey) : Option Validator :=
  s.validators.find? (fun v => v.PubKey == pubkey)

/-- Modelled from the spec: `Keeper.GetPool`. -/
def GetPool (s : State) : Pool := s.pool

/-- Modelled from the spec: `Keeper.SetPool`. -/
def SetPool (s : State) (pool : Pool) : State := { s with pool := pool }

/-- Modelled from the spec: `Keeper.GetUnbondingDelegationsFromValidator`. -/
def GetUnbondingDelegationsFromValidator (s : State) (valAddr : ValAddress) :
    List UnbondingDelegation :=
  s.unbondingDelegations.filter (fun u => u.ValidatorAddr == valAddr)

/-- Modelled from the spec: `Keeper.GetUnbondingDelegation`, the record of one
(delegator, validator) pair. -/
def GetUnbondingDelegation (s : State) (delAddr : AccAddress) (valAddr : ValAddress) :
    Option UnbondingDelegation :=
  s.unbondingDelegations.find? (fun u => u.DelegatorAddr == delAddr && u.ValidatorAddr == valAddr)

/-- Modelled from the spec: `Keeper.SetUnbondingDelegation`. -/
def SetUnbondingDelegation (s : State) (ubd : UnbondingDelegation) : State :=
  { s with unbondingDelegations :=
      (storePut (fun u => u.DelegatorAddr == ubd.DelegatorAddr && u.ValidatorAddr == ubd.ValidatorAddr)
        ubd s.unbondingDelegations) }

/-- Modelled from the spec: `Keeper.GetRedelegationsFromValidator`. -/
def GetRedelegationsFromValidator (s : State) (valAddr : ValAddress) : List Redelegation :=
  s.redelegations.filter (fun r => r.ValidatorSrcAddr == valAddr)

/-- Modelled from the spec: `Keeper.GetRedelegation`, the record of one
(delegator, source, destination) triple. -/
def GetRedelegation (s : State) (delAddr : AccAddress) (src dst : ValAddress) :
    Option Redelegation :=
  s.redelegations.find? (fun r =>
    r.DelegatorAddr == delAddr && r.ValidatorSrcAddr == src && r.ValidatorDstAddr == dst)

/-- Modelled from the spec: `Keeper.SetRedelegation`. -/
def SetRedelegation (s : State) (red : Redelegation) : State :=
  { s with redelegations :=
      (storePut (fun r => r.DelegatorAddr == red.DelegatorAddr
          && r.ValidatorSrcAddr == red.ValidatorSrcAddr
          && r.ValidatorDstAddr == red.ValidatorDstAddr)
        red s.redelegations) }

/-- Modelled from the spec: `Keeper.GetDelegation`. -/
def GetDelegation (s : State) (delAddr : AccAddress) (valAddr : ValAddress) :
    Option Delegation :=
  s.delegations.find? (fun d => d.DelegatorAddr == delAddr && d.ValidatorAddr == valAddr)

/-- The collaborators of the slashing code whose bodies are not among the sources, taken
as parameters: `Validator.IsUnbonded`, `Validator.RemoveTokens`, `Keeper.UpdateValidator`,
`Keeper.RemoveValidator` and the unbond primitive `Keeper.unbond`. -/
structure Keeper where
  IsUnbonded : Context → Validator → Bool
  RemoveTokens : Validator → Pool → Dec → Validator × Pool
  UpdateValidator : Context → State → Validator → Validator × State
  RemoveValidator : Context → State → ValAddress → State
  unbond : Context → State → AccAddress → ValAddress → Dec → Except String (Dec × State)

/-! ## The slashing code -/

/-- The function `Keeper.slashUnbondingDelegation`: slash one unbonding delegation and
update the pool; returns the amount that would have been slashed and the new stores. -/
def slashUnbondingDelegation (ctx : Context) (s : State)
    (unbondingDelegation : UnbondingDelegation) (infractionHeight : Int) (slashFactor : Dec) :
    Dec × State :=
  let now := ctx.Time
  if unbondingDelegation.CreationHeight < infractionHeight then
    (ZeroDec, s)
  else if unbondingDelegation.MinTime < now then
    (ZeroDec, s)
  else
    let slashAmount := (NewDecFromInt unbondingDelegation.InitialBalance.Amount).Mul slashFactor
    let unbondingSlashAmount := MinInt slashAmount.RoundInt unbondingDelegation.Balance.Amount
    if unbondingSlashAmount ≠ 0 then
      let unbondingDelegation := { unbondingDelegation with
        Balance := { unbondingDelegation.Balance with
          Amount := unbondingDelegation.Balance.Amount - unbondingSlashAmount } }
      let s := SetUnbondingDelegation s unbondingDelegation
      let pool := GetPool s
      let pool := { pool with LooseTokens := pool.LooseTokens.Sub slashAmount }
      let s := SetPool s pool
      (slashAmount, s)
    else
      (slashAmount, s)

set_option linter.unusedVariables false in
/-- The function `Keeper.slashRedelegation`: slash one redelegation, unbond the slashed
share of the destination delegation and burn the tokens that the unbond returns. -/
def slashRedelegation (k : Keeper) (ctx : Context) (s : State) (validator : Validator)
    (redelegation : Redelegation) (infractionHeight : Int) (slashFactor : Dec) :
    Outcome Dec :=
  let now := ctx.Time
  if redelegation.CreationHeight < infractionHeight then
    .returned ZeroDec s
  else if redelegation.MinTime < now then
    .returned ZeroDec s
  else
    let slashAmount := (NewDecFromInt redelegation.InitialBalance.Amount).Mul slashFactor
    let redelegationSlashAmount := MinInt slashAmount.RoundInt redelegation.Balance.Amount
    let s :=
      if redelegationSlashAmount ≠ 0 then
        SetRedelegation s { redelegation with
          Balance := { redelegation.Balance with
            Amount := redelegation.Balance.Amount - redelegationSlashAmount } }
      else s
    let sharesToUnbond := slashFactor.Mul redelegation.SharesDst
    if !sharesToUnbond.IsZero then
      match GetDelegation s redelegation.DelegatorAddr redelegation.ValidatorDstAddr with
      | none => .returned slashAmount s
      | some delegation =>
        let sharesToUnbond :=
          if sharesToUnbond.GT delegation.Shares then delegation.Shares else sharesToUnbond
        match k.unbond ctx s redelegation.DelegatorAddr redelegation.ValidatorDstAddr
            sharesToUnbond with
        | .error err => .panicked (.unbondError err) s
        | .ok (tokensToBurn, s) =>
          let pool := GetPool s
          let pool := { pool with LooseTokens := pool.LooseTokens.Sub tokensToBurn }
          let s := SetPool s pool
          .returned slashAmount s
    else
      .returned slashAmount s

/-- The loop of `Slash` over the unbonding delegations of the slashed validator
(slash.go, lines 82 to 88). -/
def slashUnbondingDelegations (ctx : Context) (infractionHeight : Int) (slashFactor : Dec) :
    List UnbondingDelegation → Dec → State → Dec × State
  | [], remainingSlashAmount, s => (remainingSlashAmount, s)
  | unbondingDelegation :: rest, remainingSlashAmount, s =>
    let r := slashUnbondingDelegation ctx s unbondingDelegation infractionHeight slashFactor
    if r.1.IsZero then
      slashUnbondingDelegations ctx infractionHeight slashFactor rest remainingSlashAmount r.2
    else
      slashUnbondingDelegations ctx infractionHeight slashFactor rest
        (remainingSlashAmount.Sub r.1) r.2

/-- The loop of `Slash` over the redelegations of the slashed validator (slash.go, lines
92 to 98); a panic of one call ends the loop. -/
def slashRedelegations (k : Keeper) (ctx : Context) (validator : Validator)
    (infractionHeight : Int) (slashFactor : Dec) :
    List Redelegation → Dec → State → Outcome Dec
  | [], remainingSlashAmount, s => .returned remainingSlashAmount s
  | redelegation :: rest, remainingSlashAmount, s =>
    match slashRedelegation k ctx s validator redelegation infractionHeight slashFactor with
    | .panicked cause s1 => .panicked cause s1
    | .returned amountSlashed s1 =>
      if amountSlashed.IsZero then
        slashRedelegations k ctx validator infractionHeight slashFactor rest
          remainingSlashAmount s1
      else
        slashRedelegations k ctx validator infractionHeight slashFactor rest
          (remainingSlashAmount.Sub amountSlashed) s1

/-- The end of `Slash` (slash.go, lines 104 to 116): burn `tokensToBurn` from the
validator, take it off the loose tokens, update the validator and remove it when it has
no tokens left. -/
def burnValidatorTokens (k : Keeper) (ctx : Context) (s : State) (validator : Validator)
    (tokensToBurn : Dec) : State :=
  let pool := GetPool s
  let vp := k.RemoveTokens validator pool tokensToBurn
  let validator := vp.1
  let pool := vp.2
  let pool := { pool with LooseTokens := pool.LooseTokens.Sub tokensToBurn }
  let s := SetPool s pool
  let vs := k.UpdateValidator ctx s validator
  let validator := vs.1
  let s := vs.2
  if validator.Tokens.IsZero then
    k.RemoveValidator ctx s validator.Operator
  else
    s

/-- The function `Keeper.Slash`: slash a validator for an infraction committed at a known
height. -/
def Slash (k : Keeper) (ctx : Context) (s : State) (pubkey : CryptoPubKey)
    (infractionHeight : Int) (power : Int) (slashFactor : Dec) : Outcome SlashReport :=
  if slashFactor.LT ZeroDec then
    .panicked .negativeSlashFactor s
  else
    let slashAmount := (NewDec power).Mul slashFactor
    match GetValidatorByPubKey s pubkey with
    | none => .returned .ignored s
    | some validator =>
      if k.IsUnbonded ctx validator then
        .panicked .unbondedValidator s
      else
        let operatorAddress := validator.Operator
        let remainingSlashAmount := slashAmount
        let scanned : Outcome Dec :=
          if infractionHeight > ctx.BlockHeight then
            .panicked .futureInfraction s
          else if infractionHeight = ctx.BlockHeight then
            .returned remainingSlashAmount s
          else
            let unbondingDelegations := GetUnbondingDelegationsFromValidator s operatorAddress
            let r := slashUnbondingDelegations ctx infractionHeight slashFactor
              unbondingDelegations remainingSlashAmount s
            let redelegations := GetRedelegationsFromValidator r.2 operatorAddress
            slashRedelegations k ctx validator infractionHeight slashFactor redelegations r.1 r.2
        match scanned with
        | .panicked cause s1 => .panicked cause s1
        | .returned remainingSlashAmount s1 =>
          let tokensToBurn := MinDec remainingSlashAmount validator.Tokens
          .returned (.slashed tokensToBurn) (burnValidatorTokens k ctx s1 validator tokensToBurn)

/-- The values returned by the successive calls of `slashUnbondingDelegation` over a list
of unbonding delegations, each call running on the stores the previous one left. -/
def unbondingReturns (ctx : Context) (infractionHeight : Int) (slashFactor : Dec) :
    List UnbondingDelegation → State → List Dec × State
  | [], s => ([], s)
  | unbondingDelegation :: rest, s =>
    let r := slashUnbondingDelegation ctx s unbondingDelegation infractionHeight slashFactor
    let rs := unbondingReturns ctx infractionHeight slashFactor rest r.2
    (r.1 :: rs.1, rs.2)

/-- The values returned by the successive calls of `slashRedelegation` over a list of
redelegations, each call running on the stores the previous one left; a panic of one call
is the result. -/
def redelegationReturns (k : Keeper) (ctx : Context) (validator : Validator)
    (infractionHeight : Int) (slashFactor : Dec) :
    List Redelegation → State → Outcome (List Dec)
  | [], s => .returned [] s
  | redelegation :: rest, s =>
    match slashRedelegation k ctx s validator redelegation infractionHeight slashFactor with
    | .panicked cause s1 => .panicked cause s1
    | .returned a s1 =>
      match redelegationReturns k ctx validator infractionHeight slashFactor rest s1 with
      | .panicked cause s2 => .panicked cause s2
      | .returned amounts s2 => .returned (a :: amounts) s2

/-- The burn of section 4.1, step 7, in the words of the spec: the smaller of what remains
of `power * slashFactor` after taking off the recovered sum `S`, and the validator's
tokens. -/
def burnFormula (power : Int) (slashFactor S tokens : Dec) : Dec :=
  MinDec (((NewDec power).Mul slashFactor).Sub S) tokens

/-- The record of an unbonding delegation as stored by `slashUnbondingDelegation` when it
takes `amount` off the balance. -/
def UnbondingDelegation.withSlashed (u : UnbondingDelegation) (amount : Int) :
    UnbondingDelegation :=
  { u with Balance := { u.Balance with Amount := u.Balance.Amount - amount } }

/-- The record of a redelegation as stored by `slashRedelegation` when it takes `amount`
off the balance. -/
def Redelegation.withSlashed (r : Redelegation) (amount : Int) : Redelegation :=
  { r with Balance := { r.Balance with Amount := r.Balance.Amount - amount } }

/-- The clamped amount both per-entry routines take off the balance:
`min(round(InitialBalance * slashFactor), Balance)`. -/
def clampedSlash (initialBalance balance : Int) (slashFactor : Dec) : Int :=
  MinInt ((NewDecFromInt initialBalance).Mul slashFactor).RoundInt balance

/-! ## A sample keeper, used to run the code on concrete states -/

/-- Modelled from the spec: a keeper whose collaborators do what sections 4.1 and 6 say:
a validator is unbonded when its status is `Unbonded`, `RemoveTokens` takes the tokens off
the validator, `UpdateValidator` writes the validator back, `RemoveValidator` deletes it,
and `unbond` withdraws shares from the delegation at one token per share. -/
def specKeeper : Keeper where
  IsUnbonded := fun _ v => v.Status == BondStatus.Unbonded
  RemoveTokens := fun v pool tokens => ({ v with Tokens := v.Tokens.Sub tokens }, pool)
  UpdateValidator := fun _ s v =>
    (v, { s with validators := storePut (fun w => w.Operator == v.Operator) v s.validators })
  RemoveValidator := fun _ s op =>
    { s with validators := s.validators.filter (fun w => !(w.Operator == op)) }
  unbond := fun _ s delAddr valAddr shares =>
    match GetDelegation s delAddr valAddr with
    | none => .error "no delegation"
    | some d =>
      if d.Shares.LT shares then .error "not enough shares"
      else
        .ok (shares, { s with delegations :=
          (storePut (fun e => e.DelegatorAddr == delAddr && e.ValidatorAddr == valAddr)
            { d with Shares := d.Shares.Sub shares } s.delegations) })

/-- A bonded validator with 1000 tokens. -/
def sampleValidator : Validator := ⟨7, 1, false, .Bonded, NewDec 1000⟩

/-- An unbonding delegation from `sampleValidator`, created at height 5, maturing at
time 100, with initial balance and balance 200. -/
def sampleUnbonding : UnbondingDelegation := ⟨3, 7, 5, 100, ⟨"steak", 200⟩, ⟨"steak", 200⟩⟩

/-- Stores with `sampleValidator`, `sampleUnbonding` and 5000 loose tokens. -/
def sampleState : State := ⟨[sampleValidator], ⟨NewDec 5000⟩, [sampleUnbonding], [], []⟩

/-- A block at height 10 and time 50. -/
def sampleContext : Context := ⟨10, 50⟩

/-- The stores after slashing `sampleValidator` in `sampleState` by 0.1 for power 1000:
920 tokens on the validator, 180 on the unbonding delegation, 4900 loose tokens. -/
def sampleSlashed : State :=
  ⟨[{ sampleValidator with Tokens := NewDec 920 }], ⟨NewDec 4900⟩,
    [{ sampleUnbonding with Balance := ⟨"steak", 180⟩ }], [], []⟩

/-- An unbonding delegation from `sampleValidator` that an earlier slash has brought down
to a balance of 5, from an initial balance of 200. -/
def lowUnbonding : UnbondingDelegation := ⟨3, 7, 5, 100, ⟨"steak", 200⟩, ⟨"steak", 5⟩⟩

/-- A redelegation of delegator 3 from `sampleValidator` to validator 8, created at height
5, maturing at time 100, with initial balance and balance 100 and 10 destination shares. -/
def sampleRedelegation : Redelegation :=
  ⟨3, 7, 8, 5, 100, ⟨"steak", 100⟩, ⟨"steak", 100⟩, NewDec 10⟩

/-- The delegation of delegator 3 to validator 8, with 4 shares. -/
def sampleDelegation : Delegation := ⟨3, 8, NewDec 4⟩

/-- Stores with `sampleValidator`, the unbonding delegation `lowUnbonding`, the
redelegation `sampleRedelegation` and its destination delegation. -/
def sampleLedger : State :=
  ⟨[sampleValidator], ⟨NewDec 5000⟩, [lowUnbonding], [sampleRedelegation], [sampleDelegation]⟩

/-- Stores without any validator: 5000 loose tokens, `sampleUnbonding`,
`sampleRedelegation` and `sampleDelegation`. -/
def orphanState : State :=
  ⟨[], ⟨NewDec 5000⟩, [sampleUnbonding], [sampleRedelegation], [sampleDelegation]⟩

/-- An unbonded validator with 1000 tokens. -/
def unbondedValidator : Validator := ⟨7, 1, false, .Unbonded, NewDec 1000⟩

/-- Stores with `unbondedValidator`, `sampleUnbonding` and `sampleRedelegation`. -/
def unbondedState : State :=
  ⟨[unbondedValidator], ⟨NewDec 5000⟩, [sampleUnbonding], [sampleRedelegation],
    [sampleDelegation]⟩

/-- The decimal 0.1. -/
def oneTenth : Dec := ⟨1000000000⟩

/-! ## Further definitions: fragments of `Slash`, jailing, and reference formulations -/

/-- The height switch of `Slash` (slash.go, lines 63 to 99): a panic on a future height,
nothing at the block height, and below it the two loops over the entries of the
validator, starting from `slashAmount`. -/
def scanEntries (k : Keeper) (ctx : Context) (s : State) (validator : Validator)
    (infractionHeight : Int) (slashAmount slashFactor : Dec) : Outcome Dec :=
  if infractionHeight > ctx.BlockHeight then
    .panicked .futureInfraction s
  else if infractionHeight = ctx.BlockHeight then
    .returned slashAmount s
  else
    let unbondingDelegations := GetUnbondingDelegationsFromValidator s validator.Operator
    let r := slashUnbondingDelegations ctx infractionHeight slashFactor
      unbondingDelegations slashAmount s
    let redelegations := GetRedelegationsFromValidator r.2 validator.Operator
    slashRedelegations k ctx validator infractionHeight slashFactor redelegations r.1 r.2

/-- The burn of `Slash` up to the update of the validator (slash.go, lines 104 to 111):
the validator that `UpdateValidator` returns and the stores it leaves. -/
def updateBurnedValidator (k : Keeper) (ctx : Context) (s : State) (validator : Validator)
    (tokensToBurn : Dec) : Validator × State :=
  let pool := GetPool s
  let vp := k.RemoveTokens validator pool tokensToBurn
  let validator := vp.1
  let pool := vp.2
  let pool := { pool with LooseTokens := pool.LooseTokens.Sub tokensToBurn }
  let s := SetPool s pool
  k.UpdateValidator ctx s validator

/-- The past-height course of `Slash` in the words of section 4.1, steps 6 to 10, over
given sets of entries: slash every unbonding delegation of `unbondingDelegations`, then
every redelegation of `redelegations`, then burn the smaller of what remains and the
validator's tokens. -/
def slashOverEntries (k : Keeper) (ctx : Context) (s : State) (validator : Validator)
    (unbondingDelegations : List UnbondingDelegation) (redelegations : List Redelegation)
    (infractionHeight power : Int) (slashFactor : Dec) : Outcome SlashReport :=
  let r := slashUnbondingDelegations ctx infractionHeight slashFactor unbondingDelegations
    ((NewDec power).Mul slashFactor) s
  match slashRedelegations k ctx validator infractionHeight slashFactor redelegations
      r.1 r.2 with
  | .panicked cause s1 => .panicked cause s1
  | .returned remainingSlashAmount s1 =>
    let tokensToBurn := MinDec remainingSlashAmount validator.Tokens
    .returned (.slashed tokensToBurn) (burnValidatorTokens k ctx s1 validator tokensToBurn)

/-- The stores of `slashRedelegation` after the update of the entry's balance (slash.go,
lines 229 to 235), before the destination side is looked at. -/
def redelegationBalanceUpdated (s : State) (redelegation : Redelegation) (slashFactor : Dec) :
    State :=
  if clampedSlash redelegation.InitialBalance.Amount redelegation.Balance.Amount slashFactor
      ≠ 0 then
    SetRedelegation s (redelegation.withSlashed
      (clampedSlash redelegation.InitialBalance.Amount redelegation.Balance.Amount
        slashFactor))
  else s

/-- The function `Keeper.setJailed`: set the jailed flag on a validator. -/
def setJailed (k : Keeper) (ctx : Context) (s : State) (pubkey : CryptoPubKey)
    (isJailed : Bool) : Outcome Unit :=
  match GetValidatorByPubKey s pubkey with
  | none => .panicked .validatorNotFound s
  | some validator =>
    let validator := { validator with Jailed := isJailed }
    .returned () (k.UpdateValidator ctx s validator).2

/-- The function `Keeper.Jail`: jail a validator. -/
def Jail (k : Keeper) (ctx : Context) (s : State) (pubkey : CryptoPubKey) : Outcome Unit :=
  setJailed k ctx s pubkey true

/-- The function `Keeper.Unjail`: unjail a validator. -/
def Unjail (k : Keeper) (ctx : Context) (s : State) (pubkey : CryptoPubKey) : Outcome Unit :=
  setJailed k ctx s pubkey false

/-- What one call of `slashUnbondingDelegation` does, apart from the stores it runs on:
the amount it returns and the record it writes, if it writes one. -/
def unbondingEffect (ctx : Context) (u : UnbondingDelegation) (infractionHeight : Int)
    (slashFactor : Dec) : Dec × Option UnbondingDelegation :=
  if u.CreationHeight < infractionHeight then (ZeroDec, none)
  else if u.MinTime < ctx.Time then (ZeroDec, none)
  else if clampedSlash u.InitialBalance.Amount u.Balance.Amount slashFactor ≠ 0 then
    ((NewDecFromInt u.InitialBalance.Amount).Mul slashFactor,
      some (u.withSlashed (clampedSlash u.InitialBalance.Amount u.Balance.Amount slashFactor)))
  else ((NewDecFromInt u.InitialBalance.Amount).Mul slashFactor, none)

/-- Carry out on the stores what `unbondingEffect` describes: write the record and take
the returned amount off the loose tokens, or do nothing. -/
def applyUnbondingEffect (s : State) (e : Dec × Option UnbondingDelegation) : State :=
  match e.2 with
  | none => s
  | some w =>
    SetPool (SetUnbondingDelegation s w)
      { GetPool (SetUnbondingDelegation s w) with
        LooseTokens := (GetPool (SetUnbondingDelegation s w)).LooseTokens.Sub e.1 }

/-- The fraction `1 - (1 - f1)(1 - f2)` of the proportionality property of section 8. -/
def combinedFraction (f1 f2 : Dec) : Dec :=
  (NewDec 1).Sub (((NewDec 1).Sub f1).Mul ((NewDec 1).Sub f2))

/-- Two successive calls of `slashUnbondingDelegation` on the same stored entry, with
factors `f1` and `f2`: the second call takes the record that the first one left in the
store. -/
def slashUnbondingDelegationTwice (ctx : Context) (s : State) (u : UnbondingDelegation)
    (infractionHeight : Int) (f1 f2 : Dec) : State :=
  let s1 := (slashUnbondingDelegation ctx s u infractionHeight f1).2
  match GetUnbondingDelegation s1 u.DelegatorAddr u.ValidatorAddr with
  | none => s1
  | some u1 => (slashUnbondingDelegation ctx s1 u1 infractionHeight f2).2

/-- The balance of the stored unbonding delegation of a (delegator, validator) pair. -/
def unbondingBalance (s : State) (delAddr : AccAddress) (valAddr : ValAddress) : Option Int :=
  (GetUnbondingDelegation s delAddr valAddr).map (fun u => u.Balance.Amount)

/-- A bonded validator with 50 tokens. -/
def poorValidator : Validator := ⟨7, 1, false, .Bonded, NewDec 50⟩

/-- Stores with `poorValidator`, 5000 loose tokens and no entries. -/
def poorState : State := ⟨[poorValidator], ⟨NewDec 5000⟩, [], [], []⟩

/-- The stores after slashing `poorValidator` in `poorState` for more than it holds: the
validator is gone and 50 loose tokens are burned. -/
def poorSlashed : State := ⟨[], ⟨NewDec 4950⟩, [], [], []⟩

/-- The stores after `slashRedelegation` of `sampleRedelegation` in `sampleLedger` at
factor 0.1: balance 90, one share unbonded at the destination, one loose token burned. -/
def redelegationSlashed : State :=
  ⟨[sampleValidator], ⟨NewDec 4999⟩, [lowUnbonding],
    [{ sampleRedelegation with Balance := ⟨"steak", 90⟩ }],
    [{ sampleDelegation with Shares := NewDec 3 }]⟩

/-- The stores after `slashRedelegation` of `sampleRedelegation` in `sampleLedger` at
factor 0.5: balance 50, all 4 shares of the destination delegation unbonded, 4 loose
tokens burned. -/
def redelegationHalved : State :=
  ⟨[sampleValidator], ⟨NewDec 4996⟩, [lowUnbonding],
    [{ sampleRedelegation with Balance := ⟨"steak", 50⟩ }],
    [{ sampleDelegation with Shares := NewDec 0 }]⟩

/-- The stores after `slashRedelegation` of `sampleRedelegation` in `noDelegationLedger`
at factor 0.1: balance 90, pool untouched. -/
def noDelegationSlashed : State :=
  ⟨[sampleValidator], ⟨NewDec 5000⟩, [lowUnbonding],
    [{ sampleRedelegation with Balance := ⟨"steak", 90⟩ }], []⟩

/-- The stores after jailing `sampleValidator` in `sampleState`. -/
def sampleJailed : State :=
  ⟨[{ sampleValidator with Jailed := true }], ⟨NewDec 5000⟩, [sampleUnbonding], [], []⟩

/-- The decimal 0.5. -/
def oneHalf : Dec := ⟨5000000000⟩

/-- An unbonding delegation from validator 7 with initial balance and balance 1000. -/
def fullUnbonding : UnbondingDelegation := ⟨3, 7, 5, 100, ⟨"steak", 1000⟩, ⟨"steak", 1000⟩⟩

/-- Stores with `sampleValidator` and `fullUnbonding`. -/
def fullState : State := ⟨[sampleValidator], ⟨NewDec 5000⟩, [fullUnbonding], [], []⟩

/-- A second unbonding delegation from validator 7, of delegator 4, created at height 6,
with initial balance and balance 300. -/
def secondUnbonding : UnbondingDelegation := ⟨4, 7, 6, 100, ⟨"steak", 300⟩, ⟨"steak", 300⟩⟩

/-- Stores with `sampleValidator` and two unbonding delegations from it. -/
def pairState : State :=
  ⟨[sampleValidator], ⟨NewDec 5000⟩, [sampleUnbonding, secondUnbonding], [], []⟩

/-- The stores after the scan of the two unbonding delegations of `pairState` at factor
0.1: balances 180 and 270, 50 loose tokens burned. -/
def pairScanned : State :=
  ⟨[sampleValidator], ⟨NewDec 4950⟩,
    [{ sampleUnbonding with Balance := ⟨"steak", 180⟩ },
      { secondUnbonding with Balance := ⟨"steak", 270⟩ }], [], []⟩

/-- The stores after slashing `sampleValidator` in `sampleState` by 0.1 for power 100,
under `specKeeper`: the unbonding delegation is credited with 20 against a slash amount
of 10, the validator holds 1010 tokens and the pool 4990 loose tokens. -/
def overcreditedSlashed : State :=
  ⟨[{ sampleValidator with Tokens := NewDec 1010 }], ⟨NewDec 4990⟩,
    [{ sampleUnbonding with Balance := ⟨"steak", 180⟩ }], [], []⟩

/-- The stores after the scan of `sampleState` at factor 0.1: the unbonding delegation is
down to 180 and the pool to 4980 loose tokens. -/
def overcreditedScanned : State :=
  ⟨[sampleValidator], ⟨NewDec 4980⟩,
    [{ sampleUnbonding with Balance := ⟨"steak", 180⟩ }], [], []⟩

/-- Stores like `sampleLedger`, without the destination delegation of the redelegation. -/
def noDelegationLedger : State :=
  ⟨[sampleValidator], ⟨NewDec 5000⟩, [lowUnbonding], [sampleRedelegation], []⟩

end Stake

/-! ## The error type of `types/errors.go` -/

namespace SdkTypes

/-- The type `CodeType`, a `uint16`: a natural number below `2^16`. -/
abbrev CodeType := Nat

/-- The type `CodespaceType`, a `uint16`: a natural number below `2^16`. -/
abbrev CodespaceType := Nat

/-- The constant `CodeOK`. -/
def CodeOK : CodeType := 0

/-- The constant `CodeInternal`. -/
def CodeInternal : CodeType := 1

/-- The constant `CodespaceUndefined`: 0 is the unset codespace. -/
def CodespaceUndefined : CodespaceType := 0

/-- The constant `CodespaceRoot`. -/
def CodespaceRoot : CodespaceType := 1

/-- The type `sdkError`; the embedded `cmnError` is kept as its message. -/
structure sdkError where
  codespace : CodespaceType
  code : CodeType
  cmnError : String
  deriving DecidableEq, Repr

set_option linter.unusedVariables false in
/-- The method `sdkError.WithDefaultCodespace`. -/
def sdkError.WithDefaultCodespace (err : sdkError) (cs : CodespaceType) : sdkError :=
  let codespace := err.codespace
  let codespace := if codespace = CodespaceUndefined then cs else codespace
  { codespace := cs, code := err.code, cmnError := err.cmnError }

/-- The method `sdkError.Codespace`. -/
def sdkError.Codespace (err : sdkError) : CodespaceType := err.codespace

/-- The method `sdkError.Code`. -/
def sdkError.Code (err : sdkError) : CodeType := err.code

/-- What the comment on `CodespaceUndefined` asks of `WithDefaultCodespace`: the default
takes the place of an unset codespace only. -/
def defaultedCodespace (err : sdkError) (cs : CodespaceType) : CodespaceType :=
  if err.codespace = CodespaceUndefined then cs else err.codespace

/-- The type `ABCICodeType`, a `uint32`: a natural number below `2^32`. -/
abbrev ABCICodeType := Nat

/-- The constant `ABCICodeOK`. -/
def ABCICodeOK : ABCICodeType := 0

/-- The method `ABCICodeType.IsOK`. -/
def ABCICodeType.IsOK (code : ABCICodeType) : Bool :=
  if code = ABCICodeOK then true else false

/-- The function `ToABCICode`: the conversions to `uint32`, the shift and the bitwise or
are those of 32-bit unsigned integers. -/
def ToABCICode (space : CodespaceType) (code : CodeType) : ABCICodeType :=
  if space = CodespaceRoot ∧ code = CodeOK then
    ABCICodeOK
  else
    (((space % 4294967296) <<< 16) % 4294967296) ||| (code % 4294967296)

/-- A Go string, as the sequence of its bytes. -/
abbrev GoString := List Nat

/-- The byte of the character `{`. -/
def openBrace : Nat := 123

/-- The library function `strings.Index(s, sub)` for a one-byte `sub`: the index of the
first occurrence of the byte in `s`, or -1 when there is none. -/
def stringsIndex : GoString → Nat → Int
  | [], _ => -1
  | x :: xs, b =>
    if x = b then 0
    else if stringsIndex xs b = -1 then -1
    else stringsIndex xs b + 1

/-- The slice expression `s[low:high]` of Go on a string: the bytes from `low` up to
`high`, and a run-time panic (`none`) unless `0 <= low <= high <= len(s)`. -/
def sliceExpr (s : GoString) (low high : Int) : Option GoString :=
  if 0 ≤ low ∧ low ≤ high ∧ high ≤ (s.length : Int) then
    some ((s.take high.toNat).drop low.toNat)
  else
    none

/-- The function `parseCmnError`; `none` is the run-time panic of the slice
expression. -/
def parseCmnError (err : GoString) : Option GoString :=
  let idx := stringsIndex err openBrace
  if idx ≠ -1 then
    sliceExpr err (idx + 1) ((err.length : Int) - 1)
  else
    some err

/-- The text `Error{msg}`: the shape of the text of `cmnError.Error()`, from the
tendermint library, that the callers of `parseCmnError` hand to it. -/
def cmnErrorText (msg : GoString) : GoString :=
  [69, 114, 114, 111, 114, 123] ++ msg ++ [125]

/-- An error of codespace `CodespaceRoot` and code `CodeInternal`. -/
def rootError : sdkError := ⟨CodespaceRoot, CodeInternal, "internal error"⟩

end SdkTypes

namespace Stake

/-! ## Lemmas on the primitives -/

theorem Dec.ext_raw {a b : Dec} (h : a.raw = b.raw) : a = b := by
  cases a; cases b; simp_all

theorem Dec.le_def (a b : Dec) : a ≤ b ↔ a.raw ≤ b.raw := Iff.rfl

theorem Dec.lt_def (a b : Dec) : a < b ↔ a.raw < b.raw := Iff.rfl

theorem MinDec_raw (a b : Dec) : (MinDec a b).raw = min a.raw b.raw := by
  unfold MinDec Dec.LT
  by_cases h : a.raw < b.raw
  · simp [h, le_of_lt h]
  · simp [h, not_lt.mp h]

theorem MinInt_eq_min (a b : Int) : MinInt a b = min a b := by
  unfold MinInt
  by_cases h : a < b
  · simp [h, le_of_lt h]
  · simp [h, not_lt.mp h]

theorem chopPrecisionAndRound_nonneg {x : Int} (h : 0 ≤ x) : 0 ≤ chopPrecisionAndRound x := by
  unfold chopPrecisionAndRound Dec.unit
  omega

theorem penalty_round_nonneg {i : Int} {f : Dec} (hi : 0 ≤ i) (hf : ZeroDec ≤ f) :
    0 ≤ ((NewDecFromInt i).Mul f).RoundInt := by
  have hf0 : 0 ≤ f.raw := hf
  unfold Dec.RoundInt Dec.Mul NewDecFromInt
  apply chopPrecisionAndRound_nonneg
  apply chopPrecisionAndRound_nonneg
  exact mul_nonneg (mul_nonneg hi (by unfold Dec.unit; omega)) hf0

/-! ## Lemmas on the stores -/

theorem find?_storePut {α : Type} (p : α → Bool) (x : α) (hx : p x = true) :
    ∀ l : List α, (storePut p x l).find? p = some x := by
  intro l
  induction l with
  | nil => simp [storePut, hx]
  | cons y ys ih =>
    unfold storePut
    by_cases hy : p y = true
    · simp [hy, hx]
    · simp [hy, ih]

theorem GetUnbondingDelegation_SetUnbondingDelegation (s : State) (u : UnbondingDelegation) :
    GetUnbondingDelegation (SetUnbondingDelegation s u) u.DelegatorAddr u.ValidatorAddr
      = some u := by
  unfold GetUnbondingDelegation SetUnbondingDelegation
  exact find?_storePut _ u (by simp) _

theorem GetRedelegation_SetRedelegation (s : State) (r : Redelegation) :
    GetRedelegation (SetRedelegation s r) r.DelegatorAddr r.ValidatorSrcAddr r.ValidatorDstAddr
      = some r := by
  unfold GetRedelegation SetRedelegation
  exact find?_storePut _ r (by simp) _

theorem unbonding_withSlashed_zero (u : UnbondingDelegation) :
    u.withSlashed 0 = u := by
  cases u
  simp [UnbondingDelegation.withSlashed]

theorem redelegation_withSlashed_zero (r : Redelegation) : r.withSlashed 0 = r := by
  cases r
  simp [Redelegation.withSlashed]

/-- What `slashUnbondingDelegation` leaves in the store for an eligible entry that is the
stored record of its (delegator, validator) pair. -/
theorem slashUnbondingDelegation_stored (ctx : Context) (s : State) (u : UnbondingDelegation)
    (h : Int) (f : Dec)
    (hstored : GetUnbondingDelegation s u.DelegatorAddr u.ValidatorAddr = some u)
    (hheight : h ≤ u.CreationHeight) (htime : ctx.Time ≤ u.MinTime) :
    GetUnbondingDelegation (slashUnbondingDelegation ctx s u h f).2
        u.DelegatorAddr u.ValidatorAddr
      = some (u.withSlashed (clampedSlash u.InitialBalance.Amount u.Balance.Amount f)) := by
  unfold slashUnbondingDelegation
  simp only [if_neg (not_lt.mpr hheight), if_neg (not_lt.mpr htime)]
  split
  · exact GetUnbondingDelegation_SetUnbondingDelegation s
      (u.withSlashed (clampedSlash u.InitialBalance.Amount u.Balance.Amount f))
  · rename_i hz
    have hz0 : clampedSlash u.InitialBalance.Amount u.Balance.Amount f = 0 := by
      simpa [clampedSlash] using hz
    rw [hz0, unbonding_withSlashed_zero]
    exact hstored

/-- The stores right after the balance update of `slashRedelegation` (slash.go, lines 232
to 235) hold the slashed record, for an eligible entry that is the stored record of its
key. -/
theorem slashRedelegation_state_redelegations (k : Keeper) (ctx : Context) (s : State)
    (v : Validator) (r : Redelegation) (h : Int) (f : Dec)
    (hunbond : ∀ c t d w sh tokens t1,
      k.unbond c t d w sh = .ok (tokens, t1) → t1.redelegations = t.redelegations)
    (hheight : h ≤ r.CreationHeight) (htime : ctx.Time ≤ r.MinTime) :
    (slashRedelegation k ctx s v r h f).state.redelegations
      = (if clampedSlash r.InitialBalance.Amount r.Balance.Amount f ≠ 0 then
          SetRedelegation s
            (r.withSlashed (clampedSlash r.InitialBalance.Amount r.Balance.Amount f))
        else s).redelegations := by
  unfold slashRedelegation
  simp only [if_neg (not_lt.mpr hheight), if_neg (not_lt.mpr htime)]
  split
  · split
    · rfl
    · rename_i d hd
      split
      · rfl
      · rename_i tokens t1 hok
        simp only [Outcome.state, SetPool]
        rw [hunbond _ _ _ _ _ _ _ hok]
        rfl
  · rfl

theorem slashRedelegation_stored (k : Keeper) (ctx : Context) (s : State)
    (v : Validator) (r : Redelegation) (h : Int) (f : Dec)
    (hunbond : ∀ c t d w sh tokens t1,
      k.unbond c t d w sh = .ok (tokens, t1) → t1.redelegations = t.redelegations)
    (hstored : GetRedelegation s r.DelegatorAddr r.ValidatorSrcAddr r.ValidatorDstAddr = some r)
    (hheight : h ≤ r.CreationHeight) (htime : ctx.Time ≤ r.MinTime) :
    GetRedelegation (slashRedelegation k ctx s v r h f).state
        r.DelegatorAddr r.ValidatorSrcAddr r.ValidatorDstAddr
      = some (r.withSlashed (clampedSlash r.InitialBalance.Amount r.Balance.Amount f)) := by
  have hred := slashRedelegation_state_redelegations k ctx s v r h f hunbond hheight htime
  unfold GetRedelegation at hstored ⊢
  rw [hred]
  by_cases hz : clampedSlash r.InitialBalance.Amount r.Balance.Amount f = 0
  · rw [if_neg (by simpa using hz), hz, redelegation_withSlashed_zero]
    exact hstored
  · rw [if_pos hz]
    exact GetRedelegation_SetRedelegation s
      (r.withSlashed (clampedSlash r.InitialBalance.Amount r.Balance.Amount f))

theorem clampedSlash_bounds {initialBalance balance : Int} {f : Dec}
    (hf : ZeroDec ≤ f) (h0 : 0 ≤ balance) (h1 : balance ≤ initialBalance) :
    0 ≤ clampedSlash initialBalance balance f
      ∧ clampedSlash initialBalance balance f ≤ balance := by
  unfold clampedSlash
  rw [MinInt_eq_min]
  exact ⟨le_min (penalty_round_nonneg (le_trans h0 h1) hf) h0, min_le_right _ _⟩

theorem slashUnbondingDelegation_ineligible (ctx : Context) (s : State)
    (u : UnbondingDelegation) (h : Int) (f : Dec)
    (hgate : u.CreationHeight < h ∨ u.MinTime < ctx.Time) :
    slashUnbondingDelegation ctx s u h f = (ZeroDec, s) := by
  unfold slashUnbondingDelegation
  by_cases hc : u.CreationHeight < h
  · simp [hc]
  · have ht : u.MinTime < ctx.Time := hgate.resolve_left hc
    simp [hc, ht]

theorem slashRedelegation_ineligible (k : Keeper) (ctx : Context) (s : State)
    (v : Validator) (r : Redelegation) (h : Int) (f : Dec)
    (hgate : r.CreationHeight < h ∨ r.MinTime < ctx.Time) :
    slashRedelegation k ctx s v r h f = .returned ZeroDec s := by
  unfold slashRedelegation
  by_cases hc : r.CreationHeight < h
  · simp [hc]
  · have ht : r.MinTime < ctx.Time := hgate.resolve_left hc
    simp [hc, ht]

theorem specKeeper_unbond_redelegations :
    ∀ (c : Context) (t : State) (d : AccAddress) (w : ValAddress) (sh tokens : Dec)
      (t1 : State),
      specKeeper.unbond c t d w sh = .ok (tokens, t1) → t1.redelegations = t.redelegations := by
  intro c t d w sh tokens t1 hok
  simp only [specKeeper] at hok
  split at hok
  · cases hok
  · split at hok
    · cases hok
    · cases hok
      rfl

/-! ## Lemmas on the two scans of `Slash` -/

theorem slashUnbondingDelegations_eq (ctx : Context) (h : Int) (f : Dec) :
    ∀ (us : List UnbondingDelegation) (rem : Dec) (s : State),
      slashUnbondingDelegations ctx h f us rem s
        = (rem.Sub (sumDec (unbondingReturns ctx h f us s).1), (unbondingReturns ctx h f us s).2) := by
  intro us
  induction us with
  | nil =>
    intro rem s
    simp [slashUnbondingDelegations, unbondingReturns, sumDec, Dec.Sub, ZeroDec]
  | cons u us ih =>
    intro rem s
    simp only [slashUnbondingDelegations, unbondingReturns, sumDec]
    split
    · rename_i hz
      rw [ih]
      have hz0 : (slashUnbondingDelegation ctx s u h f).1.raw = 0 := by
        simpa [Dec.IsZero] using hz
      congr 1
      apply Dec.ext_raw
      simp [Dec.Sub, Dec.Add, hz0]
    · rw [ih]
      congr 1
      apply Dec.ext_raw
      simp only [Dec.Sub, Dec.Add]
      omega

theorem slashRedelegations_eq (k : Keeper) (ctx : Context) (v : Validator) (h : Int) (f : Dec) :
    ∀ (rs : List Redelegation) (rem : Dec) (s : State),
      slashRedelegations k ctx v h f rs rem s
        = match redelegationReturns k ctx v h f rs s with
          | .panicked cause s1 => .panicked cause s1
          | .returned amounts s1 => .returned (rem.Sub (sumDec amounts)) s1 := by
  intro rs
  induction rs with
  | nil =>
    intro rem s
    simp [slashRedelegations, redelegationReturns, sumDec, Dec.Sub, ZeroDec]
  | cons r rs ih =>
    intro rem s
    simp only [slashRedelegations, redelegationReturns]
    cases hr : slashRedelegation k ctx s v r h f with
    | panicked cause s1 => simp
    | returned a s1 =>
      simp only []
      split
      · rename_i hz
        rw [ih]
        have hz0 : a.raw = 0 := by simpa [Dec.IsZero] using hz
        cases hrest : redelegationReturns k ctx v h f rs s1 with
        | panicked cause s2 => simp
        | returned amounts s2 =>
          simp only [sumDec]
          congr 1
          apply Dec.ext_raw
          simp [Dec.Sub, Dec.Add, hz0]
      · rw [ih]
        cases hrest : redelegationReturns k ctx v h f rs s1 with
        | panicked cause s2 => simp
        | returned amounts s2 =>
          simp only [sumDec]
          congr 1
          apply Dec.ext_raw
          simp only [Dec.Sub, Dec.Add]
          omega

theorem slashUnbondingDelegation_redelegations (ctx : Context) (s : State)
    (u : UnbondingDelegation) (h : Int) (f : Dec) :
    (slashUnbondingDelegation ctx s u h f).2.redelegations = s.redelegations := by
  unfold slashUnbondingDelegation
  simp only []
  split
  · rfl
  · split
    · rfl
    · split <;> rfl

theorem unbondingReturns_redelegations (ctx : Context) (h : Int) (f : Dec) :
    ∀ (us : List UnbondingDelegation) (s : State),
      (unbondingReturns ctx h f us s).2.redelegations = s.redelegations := by
  intro us
  induction us with
  | nil => intro s; rfl
  | cons u us ih =>
    intro s
    simp only [unbondingReturns]
    rw [ih, slashUnbondingDelegation_redelegations]

theorem GetRedelegationsFromValidator_unbondingReturns (ctx : Context) (h : Int) (f : Dec)
    (us : List UnbondingDelegation) (s : State) (op : ValAddress) :
    GetRedelegationsFromValidator (unbondingReturns ctx h f us s).2 op
      = GetRedelegationsFromValidator s op := by
  unfold GetRedelegationsFromValidator
  rw [unbondingReturns_redelegations]

theorem Dec.LT_zero_eq_false {f : Dec} (hf : ZeroDec ≤ f) : f.LT ZeroDec = false := by
  have h0 : (0 : Int) ≤ f.raw := hf
  simp [Dec.LT, ZeroDec, h0]

theorem Dec.LT_zero_eq_true {f : Dec} (hf : f < ZeroDec) : f.LT ZeroDec = true := by
  have h0 : f.raw < (0 : Int) := hf
  simp [Dec.LT, ZeroDec, h0]

/-! ## The claims -/

/-- C1: when the validator is found and not unbonded, the slash factor is not negative and
the infraction height is below the block height, `Slash` burns from the validator exactly
`min(power * slashFactor - S, validator.Tokens)`, where `S` is the sum of the values
returned by `slashUnbondingDelegation` over all unbonding delegations from the validator
and by `slashRedelegation` over all redelegations from the validator. The only other
course is that one of the `slashRedelegation` calls aborts, so that there is no `S`; then
`Slash` aborts with it. -/
theorem Slash_burns_min_of_remaining_and_tokens
    (k : Keeper) (ctx : Context) (s : State) (pubkey : CryptoPubKey)
    (infractionHeight power : Int) (slashFactor : Dec) (validator : Validator)
    (hfound : GetValidatorByPubKey s pubkey = some validator)
    (hbonded : k.IsUnbonded ctx validator = false)
    (hfactor : ZeroDec ≤ slashFactor)
    (hpast : infractionHeight < ctx.BlockHeight) :
    match redelegationReturns k ctx validator infractionHeight slashFactor
        (GetRedelegationsFromValidator s validator.Operator)
        (unbondingReturns ctx infractionHeight slashFactor
          (GetUnbondingDelegationsFromValidator s validator.Operator) s).2 with
    | .returned amounts s2 =>
      Slash k ctx s pubkey infractionHeight power slashFactor
        = .returned
            (.slashed (burnFormula power slashFactor
              ((sumDec (unbondingReturns ctx infractionHeight slashFactor
                  (GetUnbondingDelegationsFromValidator s validator.Operator) s).1).Add
                (sumDec amounts))
              validator.Tokens))
            (burnValidatorTokens k ctx s2 validator
              (burnFormula power slashFactor
                ((sumDec (unbondingReturns ctx infractionHeight slashFactor
                    (GetUnbondingDelegationsFromValidator s validator.Operator) s).1).Add
                  (sumDec amounts))
                validator.Tokens))
    | .panicked cause s1 =>
      Slash k ctx s pubkey infractionHeight power slashFactor = .panicked cause s1 := by
  have hsub : ∀ a b c : Dec, (a.Sub b).Sub c = a.Sub (b.Add c) := by
    intro a b c
    apply Dec.ext_raw
    simp only [Dec.Sub, Dec.Add]
    omega
  have hslash : Slash k ctx s pubkey infractionHeight power slashFactor
      = match redelegationReturns k ctx validator infractionHeight slashFactor
          (GetRedelegationsFromValidator s validator.Operator)
          (unbondingReturns ctx infractionHeight slashFactor
            (GetUnbondingDelegationsFromValidator s validator.Operator) s).2 with
        | .returned amounts s2 =>
          .returned
            (.slashed (MinDec ((((NewDec power).Mul slashFactor).Sub
                (sumDec (unbondingReturns ctx infractionHeight slashFactor
                  (GetUnbondingDelegationsFromValidator s validator.Operator) s).1)).Sub
                (sumDec amounts)) validator.Tokens))
            (burnValidatorTokens k ctx s2 validator
              (MinDec ((((NewDec power).Mul slashFactor).Sub
                (sumDec (unbondingReturns ctx infractionHeight slashFactor
                  (GetUnbondingDelegationsFromValidator s validator.Operator) s).1)).Sub
                (sumDec amounts)) validator.Tokens))
        | .panicked cause s1 => .panicked cause s1 := by
    unfold Slash
    simp only [Dec.LT_zero_eq_false hfactor, hfound, hbonded, gt_iff_lt,
      if_neg (not_lt.mpr (le_of_lt hpast)), if_neg (ne_of_lt hpast),
      slashUnbondingDelegations_eq, slashRedelegations_eq,
      GetRedelegationsFromValidator_unbondingReturns]
    cases redelegationReturns k ctx validator infractionHeight slashFactor
        (GetRedelegationsFromValidator s validator.Operator)
        (unbondingReturns ctx infractionHeight slashFactor
          (GetUnbondingDelegationsFromValidator s validator.Operator) s).2 <;> simp
  rw [hslash]
  cases redelegationReturns k ctx validator infractionHeight slashFactor
      (GetRedelegationsFromValidator s validator.Operator)
      (unbondingReturns ctx infractionHeight slashFactor
        (GetUnbondingDelegationsFromValidator s validator.Operator) s).2 with
  | panicked cause s1 => rfl
  | returned amounts s2 => simp only [burnFormula, hsub]

/-- C1 on the scenario of the spec: tokens 1000, power 1000, factor 0.1 and one eligible
unbonding delegation with initial balance and balance 200: the hypotheses hold, the
returned values sum to 20, the burn is 80 and the validator is left with 920 tokens. -/
theorem Slash_burns_min_of_remaining_and_tokens_witness :
    GetValidatorByPubKey sampleState 1 = some sampleValidator
    ∧ specKeeper.IsUnbonded sampleContext sampleValidator = false
    ∧ ZeroDec ≤ oneTenth
    ∧ (5 : Int) < sampleContext.BlockHeight
    ∧ (unbondingReturns sampleContext 5 oneTenth
        (GetUnbondingDelegationsFromValidator sampleState sampleValidator.Operator)
        sampleState).1 = [NewDec 20]
    ∧ Slash specKeeper sampleContext sampleState 1 5 1000 oneTenth
        = .returned (.slashed (NewDec 80)) sampleSlashed :=
  ⟨by decide, by decide, by decide, by decide, by decide,
    Eq.trans
      (Slash_burns_min_of_remaining_and_tokens specKeeper sampleContext sampleState 1 5 1000
        oneTenth sampleValidator (by decide) (by decide) (by decide) (by decide))
      (by decide)⟩

/-- C3: with a slash factor that is not negative, for every unbonding delegation that is
the stored record of its key and has `0 <= Balance <= InitialBalance`, the record in the
store after `slashUnbondingDelegation` has the same `InitialBalance`, still has
`0 <= Balance <= InitialBalance`, and its `Balance` is not larger than before; and the
same holds for every such redelegation after `slashRedelegation`, returned or aborted,
when the unbond primitive leaves the redelegation store alone. -/
theorem slash_entry_keeps_balance_bounds
    (k : Keeper) (ctx : Context) (s : State) (validator : Validator)
    (infractionHeight : Int) (slashFactor : Dec)
    (hfactor : ZeroDec ≤ slashFactor) :
    (∀ u : UnbondingDelegation,
      GetUnbondingDelegation s u.DelegatorAddr u.ValidatorAddr = some u →
      0 ≤ u.Balance.Amount → u.Balance.Amount ≤ u.InitialBalance.Amount →
      ∃ u1,
        GetUnbondingDelegation (slashUnbondingDelegation ctx s u infractionHeight slashFactor).2
            u.DelegatorAddr u.ValidatorAddr = some u1
          ∧ u1.InitialBalance = u.InitialBalance
          ∧ 0 ≤ u1.Balance.Amount
          ∧ u1.Balance.Amount ≤ u1.InitialBalance.Amount
          ∧ u1.Balance.Amount ≤ u.Balance.Amount)
    ∧ ((∀ c t d w sh tokens t1,
          k.unbond c t d w sh = .ok (tokens, t1) → t1.redelegations = t.redelegations) →
      ∀ r : Redelegation,
      GetRedelegation s r.DelegatorAddr r.ValidatorSrcAddr r.ValidatorDstAddr = some r →
      0 ≤ r.Balance.Amount → r.Balance.Amount ≤ r.InitialBalance.Amount →
      ∃ r1,
        GetRedelegation
            (slashRedelegation k ctx s validator r infractionHeight slashFactor).state
            r.DelegatorAddr r.ValidatorSrcAddr r.ValidatorDstAddr = some r1
          ∧ r1.InitialBalance = r.InitialBalance
          ∧ 0 ≤ r1.Balance.Amount
          ∧ r1.Balance.Amount ≤ r1.InitialBalance.Amount
          ∧ r1.Balance.Amount ≤ r.Balance.Amount) := by
  constructor
  · intro u hu hu0 hu1
    by_cases hgate : u.CreationHeight < infractionHeight ∨ u.MinTime < ctx.Time
    · rw [slashUnbondingDelegation_ineligible ctx s u infractionHeight slashFactor hgate]
      exact ⟨u, hu, rfl, hu0, hu1, le_refl _⟩
    · have hheight : infractionHeight ≤ u.CreationHeight := by omega
      have htime : ctx.Time ≤ u.MinTime := by omega
      have hb := clampedSlash_bounds hfactor hu0 hu1
      refine ⟨_, slashUnbondingDelegation_stored ctx s u infractionHeight slashFactor hu
        hheight htime, rfl, ?_, ?_, ?_⟩
      · simp only [UnbondingDelegation.withSlashed]
        omega
      · simp only [UnbondingDelegation.withSlashed]
        omega
      · simp only [UnbondingDelegation.withSlashed]
        omega
  · intro hunbond r hr hr0 hr1
    by_cases hgate : r.CreationHeight < infractionHeight ∨ r.MinTime < ctx.Time
    · rw [slashRedelegation_ineligible k ctx s validator r infractionHeight slashFactor hgate]
      exact ⟨r, hr, rfl, hr0, hr1, le_refl _⟩
    · have hheight : infractionHeight ≤ r.CreationHeight := by omega
      have htime : ctx.Time ≤ r.MinTime := by omega
      have hb := clampedSlash_bounds hfactor hr0 hr1
      refine ⟨_, slashRedelegation_stored k ctx s validator r infractionHeight slashFactor
        hunbond hr hheight htime, rfl, ?_, ?_, ?_⟩
      · simp only [Redelegation.withSlashed]
        omega
      · simp only [Redelegation.withSlashed]
        omega
      · simp only [Redelegation.withSlashed]
        omega

/-- C3 on `sampleLedger` at factor 0.1: the unbonding delegation with balance 5 of 200 is
left with balance 0, and the redelegation with balance 100 of 100 with balance 90. -/
theorem slash_entry_keeps_balance_bounds_witness :
    ZeroDec ≤ oneTenth
    ∧ GetUnbondingDelegation sampleLedger lowUnbonding.DelegatorAddr
        lowUnbonding.ValidatorAddr = some lowUnbonding
    ∧ 0 ≤ lowUnbonding.Balance.Amount
    ∧ lowUnbonding.Balance.Amount ≤ lowUnbonding.InitialBalance.Amount
    ∧ GetRedelegation sampleLedger sampleRedelegation.DelegatorAddr
        sampleRedelegation.ValidatorSrcAddr sampleRedelegation.ValidatorDstAddr
        = some sampleRedelegation
    ∧ 0 ≤ sampleRedelegation.Balance.Amount
    ∧ sampleRedelegation.Balance.Amount ≤ sampleRedelegation.InitialBalance.Amount
    ∧ GetUnbondingDelegation
        (slashUnbondingDelegation sampleContext sampleLedger lowUnbonding 5 oneTenth).2
        lowUnbonding.DelegatorAddr lowUnbonding.ValidatorAddr
        = some { lowUnbonding with Balance := ⟨"steak", 0⟩ }
    ∧ GetRedelegation
        (slashRedelegation specKeeper sampleContext sampleLedger sampleValidator
          sampleRedelegation 5 oneTenth).state
        sampleRedelegation.DelegatorAddr sampleRedelegation.ValidatorSrcAddr
        sampleRedelegation.ValidatorDstAddr
        = some { sampleRedelegation with Balance := ⟨"steak", 90⟩ }
    ∧ (∃ u1,
        GetUnbondingDelegation
            (slashUnbondingDelegation sampleContext sampleLedger lowUnbonding 5 oneTenth).2
            lowUnbonding.DelegatorAddr lowUnbonding.ValidatorAddr = some u1
          ∧ u1.InitialBalance = lowUnbonding.InitialBalance
          ∧ 0 ≤ u1.Balance.Amount
          ∧ u1.Balance.Amount ≤ u1.InitialBalance.Amount
          ∧ u1.Balance.Amount ≤ lowUnbonding.Balance.Amount)
    ∧ (∃ r1,
        GetRedelegation
            (slashRedelegation specKeeper sampleContext sampleLedger sampleValidator
              sampleRedelegation 5 oneTenth).state
            sampleRedelegation.DelegatorAddr sampleRedelegation.ValidatorSrcAddr
            sampleRedelegation.ValidatorDstAddr = some r1
          ∧ r1.InitialBalance = sampleRedelegation.InitialBalance
          ∧ 0 ≤ r1.Balance.Amount
          ∧ r1.Balance.Amount ≤ r1.InitialBalance.Amount
          ∧ r1.Balance.Amount ≤ sampleRedelegation.Balance.Amount) :=
  ⟨by decide, by decide, by decide, by decide, by decide, by decide, by decide, by decide,
    by decide,
    (slash_entry_keeps_balance_bounds specKeeper sampleContext sampleLedger sampleValidator
      5 oneTenth (by decide)).1 lowUnbonding (by decide) (by decide) (by decide),
    (slash_entry_keeps_balance_bounds specKeeper sampleContext sampleLedger sampleValidator
      5 oneTenth (by decide)).2 specKeeper_unbond_redelegations sampleRedelegation
      (by decide) (by decide) (by decide)⟩

/-- C4: an unbonding delegation or a redelegation with `CreationHeight < infractionHeight`
or with `MinTime` before the block time is not slashed: `slashUnbondingDelegation`
(respectively `slashRedelegation`) returns zero and leaves every store as it was, the
entry, the pool and the destination delegation included. -/
theorem slash_entry_gated_is_noop
    (k : Keeper) (ctx : Context) (s : State) (validator : Validator)
    (u : UnbondingDelegation) (r : Redelegation) (infractionHeight : Int) (slashFactor : Dec)
    (hu : u.CreationHeight < infractionHeight ∨ u.MinTime < ctx.Time)
    (hr : r.CreationHeight < infractionHeight ∨ r.MinTime < ctx.Time) :
    slashUnbondingDelegation ctx s u infractionHeight slashFactor = (ZeroDec, s)
    ∧ slashRedelegation k ctx s validator r infractionHeight slashFactor
        = .returned ZeroDec s :=
  ⟨slashUnbondingDelegation_ineligible ctx s u infractionHeight slashFactor hu,
    slashRedelegation_ineligible k ctx s validator r infractionHeight slashFactor hr⟩

/-- C4 on `sampleLedger`: at infraction height 6 the entries created at height 5 are left
alone, and so are they at block time 101, after their maturity at time 100. -/
theorem slash_entry_gated_is_noop_witness :
    (lowUnbonding.CreationHeight < 6 ∨ lowUnbonding.MinTime < sampleContext.Time)
    ∧ (sampleRedelegation.CreationHeight < 5
        ∨ sampleRedelegation.MinTime < (Context.mk 10 101).Time)
    ∧ slashUnbondingDelegation sampleContext sampleLedger lowUnbonding 6 oneTenth
        = (ZeroDec, sampleLedger)
    ∧ slashRedelegation specKeeper (Context.mk 10 101) sampleLedger sampleValidator
        sampleRedelegation 5 oneTenth = .returned ZeroDec sampleLedger :=
  ⟨by decide, by decide,
    (slash_entry_gated_is_noop specKeeper sampleContext sampleLedger sampleValidator
      lowUnbonding sampleRedelegation 6 oneTenth (by decide) (by decide)).1,
    (slash_entry_gated_is_noop specKeeper (Context.mk 10 101) sampleLedger sampleValidator
      lowUnbonding sampleRedelegation 5 oneTenth (by decide) (by decide)).2⟩

/-- C5: for an eligible unbonding delegation (`CreationHeight >= infractionHeight` and
`MinTime` not before the block time) that is the stored record of its key,
`slashUnbondingDelegation` returns the unclamped penalty `InitialBalance * slashFactor`,
and the record in the store after the call is the entry with balance
`Balance - min(round(InitialBalance * slashFactor), Balance)`, whether or not the deduction
was clamped. -/
theorem slashUnbondingDelegation_returns_unclamped_penalty
    (ctx : Context) (s : State) (u : UnbondingDelegation) (infractionHeight : Int)
    (slashFactor : Dec)
    (hstored : GetUnbondingDelegation s u.DelegatorAddr u.ValidatorAddr = some u)
    (hheight : infractionHeight ≤ u.CreationHeight)
    (htime : ¬ u.MinTime < ctx.Time) :
    (slashUnbondingDelegation ctx s u infractionHeight slashFactor).1
        = (NewDecFromInt u.InitialBalance.Amount).Mul slashFactor
    ∧ GetUnbondingDelegation (slashUnbondingDelegation ctx s u infractionHeight slashFactor).2
        u.DelegatorAddr u.ValidatorAddr
        = some { u with Balance := { u.Balance with
            Amount := u.Balance.Amount
              - MinInt ((NewDecFromInt u.InitialBalance.Amount).Mul slashFactor).RoundInt
                  u.Balance.Amount } } := by
  constructor
  · unfold slashUnbondingDelegation
    simp only [if_neg (not_lt.mpr hheight), if_neg htime]
    split <;> rfl
  · exact slashUnbondingDelegation_stored ctx s u infractionHeight slashFactor hstored hheight
      (not_lt.mp htime)

/-- C5 on `sampleLedger`: the entry with balance 5 of an initial 200 is eligible at
infraction height 5; at factor 0.1 the call returns the unclamped penalty 20 although only
5 can be taken, and the stored balance becomes 0. -/
theorem slashUnbondingDelegation_returns_unclamped_penalty_witness :
    GetUnbondingDelegation sampleLedger lowUnbonding.DelegatorAddr
        lowUnbonding.ValidatorAddr = some lowUnbonding
    ∧ (5 : Int) ≤ lowUnbonding.CreationHeight
    ∧ ¬ lowUnbonding.MinTime < sampleContext.Time
    ∧ (slashUnbondingDelegation sampleContext sampleLedger lowUnbonding 5 oneTenth).1
        = NewDec 20
    ∧ GetUnbondingDelegation
        (slashUnbondingDelegation sampleContext sampleLedger lowUnbonding 5 oneTenth).2
        lowUnbonding.DelegatorAddr lowUnbonding.ValidatorAddr
        = some { lowUnbonding with Balance := ⟨"steak", 0⟩ } :=
  ⟨by decide, by decide, by decide,
    (slashUnbondingDelegation_returns_unclamped_penalty sampleContext sampleLedger
      lowUnbonding 5 oneTenth (by decide) (by decide) (by decide)).1.trans (by decide),
    (slashUnbondingDelegation_returns_unclamped_penalty sampleContext sampleLedger
      lowUnbonding 5 oneTenth (by decide) (by decide) (by decide)).2.trans (by decide)⟩

/-- C6: for an eligible unbonding delegation, with
`actual = min(round(InitialBalance * slashFactor), Balance)`: when `actual > 0`,
`slashUnbondingDelegation` takes exactly the unclamped penalty
`InitialBalance * slashFactor` off `pool.LooseTokens`; when `actual = 0`, it leaves every
store as it was. -/
theorem slashUnbondingDelegation_pool
    (ctx : Context) (s : State) (u : UnbondingDelegation) (infractionHeight : Int)
    (slashFactor : Dec)
    (hheight : infractionHeight ≤ u.CreationHeight)
    (htime : ¬ u.MinTime < ctx.Time) :
    (0 < MinInt ((NewDecFromInt u.InitialBalance.Amount).Mul slashFactor).RoundInt
          u.Balance.Amount →
      (GetPool (slashUnbondingDelegation ctx s u infractionHeight slashFactor).2).LooseTokens
        = (GetPool s).LooseTokens.Sub
            ((NewDecFromInt u.InitialBalance.Amount).Mul slashFactor))
    ∧ (MinInt ((NewDecFromInt u.InitialBalance.Amount).Mul slashFactor).RoundInt
          u.Balance.Amount = 0 →
      (slashUnbondingDelegation ctx s u infractionHeight slashFactor).2 = s) := by
  constructor
  · intro hpos
    unfold slashUnbondingDelegation
    simp only [if_neg (not_lt.mpr hheight), if_neg htime]
    rw [if_pos (ne_of_gt hpos)]
    rfl
  · intro hzero
    unfold slashUnbondingDelegation
    simp only [if_neg (not_lt.mpr hheight), if_neg htime]
    rw [if_neg (by simpa using hzero)]

/-- C6 on `sampleLedger`: for the entry with balance 5 of an initial 200 at factor 0.1 the
clamped amount is 5, and the loose tokens go from 5000 to 4980: the pool loses the
unclamped penalty 20. -/
theorem slashUnbondingDelegation_pool_witness :
    (5 : Int) ≤ lowUnbonding.CreationHeight
    ∧ ¬ lowUnbonding.MinTime < sampleContext.Time
    ∧ MinInt ((NewDecFromInt lowUnbonding.InitialBalance.Amount).Mul oneTenth).RoundInt
        lowUnbonding.Balance.Amount = 5
    ∧ (GetPool sampleLedger).LooseTokens = NewDec 5000
    ∧ (GetPool (slashUnbondingDelegation sampleContext sampleLedger lowUnbonding 5
        oneTenth).2).LooseTokens = NewDec 4980 :=
  ⟨by decide, by decide, by decide, by decide,
    ((slashUnbondingDelegation_pool sampleContext sampleLedger lowUnbonding 5 oneTenth
      (by decide) (by decide)).1 (by decide)).trans (by decide)⟩

/-- C7: when no validator matches the public key and the slash factor is not negative,
`Slash` returns normally, with the warning as its only output, and leaves every store as it
was: validators, pool, unbonding delegations, redelegations and delegations. -/
theorem Slash_absent_validator_is_noop
    (k : Keeper) (ctx : Context) (s : State) (pubkey : CryptoPubKey)
    (infractionHeight power : Int) (slashFactor : Dec)
    (hfactor : ZeroDec ≤ slashFactor)
    (habsent : GetValidatorByPubKey s pubkey = none) :
    Slash k ctx s pubkey infractionHeight power slashFactor = .returned .ignored s := by
  unfold Slash
  simp only [Dec.LT_zero_eq_false hfactor, habsent]
  simp

/-- C7 on `orphanState`, which holds no validator but an unbonding delegation, a
redelegation and a delegation. -/
theorem Slash_absent_validator_is_noop_witness :
    ZeroDec ≤ oneTenth
    ∧ GetValidatorByPubKey orphanState 1 = none
    ∧ Slash specKeeper sampleContext orphanState 1 5 1000 oneTenth
        = .returned .ignored orphanState :=
  ⟨by decide, by decide,
    Slash_absent_validator_is_noop specKeeper sampleContext orphanState 1 5 1000 oneTenth
      (by decide) (by decide)⟩

/-- C8: with a negative slash factor `Slash` panics, whether or not the validator exists,
and the stores at the abort are the stores it was called on. -/
theorem Slash_negative_factor_panics
    (k : Keeper) (ctx : Context) (s : State) (pubkey : CryptoPubKey)
    (infractionHeight power : Int) (slashFactor : Dec)
    (hneg : slashFactor < ZeroDec) :
    Slash k ctx s pubkey infractionHeight power slashFactor
      = .panicked .negativeSlashFactor s := by
  unfold Slash
  simp only [Dec.LT_zero_eq_true hneg]
  simp

/-- C8 on a state with the validator and on a state without it, at factor -0.1. -/
theorem Slash_negative_factor_panics_witness :
    (Dec.mk (-1000000000)) < ZeroDec
    ∧ Slash specKeeper sampleContext sampleState 1 5 1000 (Dec.mk (-1000000000))
        = .panicked .negativeSlashFactor sampleState
    ∧ Slash specKeeper sampleContext orphanState 1 5 1000 (Dec.mk (-1000000000))
        = .panicked .negativeSlashFactor orphanState :=
  ⟨by decide,
    Slash_negative_factor_panics specKeeper sampleContext sampleState 1 5 1000
      (Dec.mk (-1000000000)) (by decide),
    Slash_negative_factor_panics specKeeper sampleContext orphanState 1 5 1000
      (Dec.mk (-1000000000)) (by decide)⟩

/-- C9, as stated, fails: with no validator for the public key, a slash for height 11 in a
block of height 10 returns normally. -/
theorem Slash_future_height_absent_validator_returns :
    sampleContext.BlockHeight < 11
    ∧ Slash specKeeper sampleContext orphanState 1 11 1000 oneTenth
        = .returned .ignored orphanState := by
  decide

/-- C9, amended: when a validator matches the public key and the infraction height is
above the block height, `Slash` panics, with the stores at the abort as it found them; it
does not return. -/
theorem Slash_future_height_panics
    (k : Keeper) (ctx : Context) (s : State) (pubkey : CryptoPubKey)
    (infractionHeight power : Int) (slashFactor : Dec) (validator : Validator)
    (hfound : GetValidatorByPubKey s pubkey = some validator)
    (hfuture : ctx.BlockHeight < infractionHeight) :
    ∃ cause, Slash k ctx s pubkey infractionHeight power slashFactor = .panicked cause s := by
  unfold Slash
  simp only [hfound, gt_iff_lt, if_pos hfuture]
  split
  · exact ⟨_, rfl⟩
  · split
    · exact ⟨_, rfl⟩
    · exact ⟨_, rfl⟩

/-- C9, amended, on `sampleState`: the slash of the bonded validator for height 11 in a
block of height 10 panics on the future infraction. -/
theorem Slash_future_height_panics_witness :
    GetValidatorByPubKey sampleState 1 = some sampleValidator
    ∧ sampleContext.BlockHeight < 11
    ∧ Slash specKeeper sampleContext sampleState 1 11 1000 oneTenth
        = .panicked .futureInfraction sampleState
    ∧ ∃ cause, Slash specKeeper sampleContext sampleState 1 11 1000 oneTenth
        = .panicked cause sampleState :=
  ⟨by decide, by decide, by decide,
    Slash_future_height_panics specKeeper sampleContext sampleState 1 11 1000 oneTenth
      sampleValidator (by decide) (by decide)⟩

/-- C10: when the validator is found and is unbonded, and the slash factor is not negative,
`Slash` panics before any write: the stores at the abort are the stores it was called
on. -/
theorem Slash_unbonded_validator_panics
    (k : Keeper) (ctx : Context) (s : State) (pubkey : CryptoPubKey)
    (infractionHeight power : Int) (slashFactor : Dec) (validator : Validator)
    (hfound : GetValidatorByPubKey s pubkey = some validator)
    (hunbonded : k.IsUnbonded ctx validator = true)
    (hfactor : ZeroDec ≤ slashFactor) :
    Slash k ctx s pubkey infractionHeight power slashFactor
      = .panicked .unbondedValidator s := by
  unfold Slash
  simp only [Dec.LT_zero_eq_false hfactor, hfound, hunbonded]
  simp

/-- C10 on `unbondedState`, whose validator has status `Unbonded`. -/
theorem Slash_unbonded_validator_panics_witness :
    GetValidatorByPubKey unbondedState 1 = some unbondedValidator
    ∧ specKeeper.IsUnbonded sampleContext unbondedValidator = true
    ∧ ZeroDec ≤ oneTenth
    ∧ Slash specKeeper sampleContext unbondedState 1 5 1000 oneTenth
        = .panicked .unbondedValidator unbondedState :=
  ⟨by decide, by decide, by decide,
    Slash_unbonded_validator_panics specKeeper sampleContext unbondedState 1 5 1000 oneTenth
      unbondedValidator (by decide) (by decide) (by decide)⟩

/-! ## Lemmas on the shape of `Slash` -/

theorem Slash_eq_scanEntries (k : Keeper) (ctx : Context) (s : State) (pubkey : CryptoPubKey)
    (h power : Int) (f : Dec) (v : Validator)
    (hfound : GetValidatorByPubKey s pubkey = some v)
    (hbonded : k.IsUnbonded ctx v = false)
    (hfactor : ZeroDec ≤ f) :
    Slash k ctx s pubkey h power f
      = match scanEntries k ctx s v h ((NewDec power).Mul f) f with
        | .panicked cause s1 => .panicked cause s1
        | .returned rem s1 =>
          .returned (.slashed (MinDec rem v.Tokens))
            (burnValidatorTokens k ctx s1 v (MinDec rem v.Tokens)) := by
  unfold Slash scanEntries
  simp only [Dec.LT_zero_eq_false hfactor, hfound, hbonded]
  rfl

theorem burnValidatorTokens_eq (k : Keeper) (ctx : Context) (s : State) (v : Validator)
    (t : Dec) :
    burnValidatorTokens k ctx s v t
      = if (updateBurnedValidator k ctx s v t).1.Tokens.IsZero then
          k.RemoveValidator ctx (updateBurnedValidator k ctx s v t).2
            (updateBurnedValidator k ctx s v t).1.Operator
        else (updateBurnedValidator k ctx s v t).2 := rfl

theorem scanEntries_past (k : Keeper) (ctx : Context) (s : State) (v : Validator)
    (h : Int) (a f : Dec) (hpast : h < ctx.BlockHeight) :
    scanEntries k ctx s v h a f
      = slashRedelegations k ctx v h f (GetRedelegationsFromValidator s v.Operator)
          (slashUnbondingDelegations ctx h f
            (GetUnbondingDelegationsFromValidator s v.Operator) a s).1
          (slashUnbondingDelegations ctx h f
            (GetUnbondingDelegationsFromValidator s v.Operator) a s).2 := by
  unfold scanEntries
  simp only [gt_iff_lt, if_neg (not_lt.mpr (le_of_lt hpast)), if_neg (ne_of_lt hpast)]
  have hreds : GetRedelegationsFromValidator
      (slashUnbondingDelegations ctx h f
        (GetUnbondingDelegationsFromValidator s v.Operator) a s).2 v.Operator
      = GetRedelegationsFromValidator s v.Operator := by
    rw [slashUnbondingDelegations_eq]
    exact GetRedelegationsFromValidator_unbondingReturns ctx h f _ s v.Operator
  rw [hreds]

theorem Slash_past_eq_slashOverEntries (k : Keeper) (ctx : Context) (s : State)
    (pubkey : CryptoPubKey) (h power : Int) (f : Dec) (v : Validator)
    (hfound : GetValidatorByPubKey s pubkey = some v)
    (hbonded : k.IsUnbonded ctx v = false)
    (hfactor : ZeroDec ≤ f) (hpast : h < ctx.BlockHeight) :
    Slash k ctx s pubkey h power f
      = slashOverEntries k ctx s v (GetUnbondingDelegationsFromValidator s v.Operator)
          (GetRedelegationsFromValidator s v.Operator) h power f := by
  rw [Slash_eq_scanEntries k ctx s pubkey h power f v hfound hbonded hfactor,
    scanEntries_past k ctx s v h _ f hpast]
  rfl

/-! ## The claims, continued -/

/-- C11: when the validator is found and not unbonded, the slash factor is not negative and
the infraction height is the block height, `Slash` gives the result of the past-height
course run over empty sets of unbonding delegations and redelegations: the burn is
`min(power * slashFactor, validator.Tokens)` and it is applied to the stores as `Slash`
found them, so no unbonding delegation, redelegation or delegation is touched before the
burn; and none is touched at all when the ledger collaborators leave these three stores
alone. -/
theorem Slash_at_block_height_skips_scan
    (k : Keeper) (ctx : Context) (s : State) (pubkey : CryptoPubKey)
    (infractionHeight power : Int) (slashFactor : Dec) (validator : Validator)
    (hfound : GetValidatorByPubKey s pubkey = some validator)
    (hbonded : k.IsUnbonded ctx validator = false)
    (hfactor : ZeroDec ≤ slashFactor)
    (hnow : infractionHeight = ctx.BlockHeight) :
    Slash k ctx s pubkey infractionHeight power slashFactor
        = slashOverEntries k ctx s validator [] [] infractionHeight power slashFactor
    ∧ Slash k ctx s pubkey infractionHeight power slashFactor
        = .returned (.slashed (MinDec ((NewDec power).Mul slashFactor) validator.Tokens))
            (burnValidatorTokens k ctx s validator
              (MinDec ((NewDec power).Mul slashFactor) validator.Tokens))
    ∧ ((∀ c t w, (k.UpdateValidator c t w).2.unbondingDelegations = t.unbondingDelegations
          ∧ (k.UpdateValidator c t w).2.redelegations = t.redelegations
          ∧ (k.UpdateValidator c t w).2.delegations = t.delegations) →
        (∀ c t a, (k.RemoveValidator c t a).unbondingDelegations = t.unbondingDelegations
          ∧ (k.RemoveValidator c t a).redelegations = t.redelegations
          ∧ (k.RemoveValidator c t a).delegations = t.delegations) →
        (Slash k ctx s pubkey infractionHeight power slashFactor).state.unbondingDelegations
            = s.unbondingDelegations
          ∧ (Slash k ctx s pubkey infractionHeight power slashFactor).state.redelegations
            = s.redelegations
          ∧ (Slash k ctx s pubkey infractionHeight power slashFactor).state.delegations
            = s.delegations) := by
  have hslash : Slash k ctx s pubkey infractionHeight power slashFactor
      = .returned (.slashed (MinDec ((NewDec power).Mul slashFactor) validator.Tokens))
          (burnValidatorTokens k ctx s validator
            (MinDec ((NewDec power).Mul slashFactor) validator.Tokens)) := by
    rw [Slash_eq_scanEntries k ctx s pubkey infractionHeight power slashFactor validator
      hfound hbonded hfactor]
    unfold scanEntries
    simp only [gt_iff_lt, hnow, lt_irrefl, if_false, if_true]
  refine ⟨?_, hslash, ?_⟩
  · rw [hslash]
    rfl
  · intro hupdate hremove
    rw [hslash]
    simp only [Outcome.state, burnValidatorTokens_eq]
    have hu := hupdate ctx
      (SetPool s
        { (k.RemoveTokens validator (GetPool s)
            (MinDec ((NewDec power).Mul slashFactor) validator.Tokens)).2 with
          LooseTokens :=
            (k.RemoveTokens validator (GetPool s)
              (MinDec ((NewDec power).Mul slashFactor) validator.Tokens)).2.LooseTokens.Sub
              (MinDec ((NewDec power).Mul slashFactor) validator.Tokens) })
      (k.RemoveTokens validator (GetPool s)
        (MinDec ((NewDec power).Mul slashFactor) validator.Tokens)).1
    have hupd : (updateBurnedValidator k ctx s validator
          (MinDec ((NewDec power).Mul slashFactor) validator.Tokens)).2.unbondingDelegations
          = s.unbondingDelegations
        ∧ (updateBurnedValidator k ctx s validator
          (MinDec ((NewDec power).Mul slashFactor) validator.Tokens)).2.redelegations
          = s.redelegations
        ∧ (updateBurnedValidator k ctx s validator
          (MinDec ((NewDec power).Mul slashFactor) validator.Tokens)).2.delegations
          = s.delegations := hu
    split
    · have hr := hremove ctx
        (updateBurnedValidator k ctx s validator
          (MinDec ((NewDec power).Mul slashFactor) validator.Tokens)).2
        (updateBurnedValidator k ctx s validator
          (MinDec ((NewDec power).Mul slashFactor) validator.Tokens)).1.Operator
      exact ⟨hr.1.trans hupd.1, hr.2.1.trans hupd.2.1, hr.2.2.trans hupd.2.2⟩
    · exact hupd

/-- C11 on `sampleState` at the block height 10: the scan is skipped, the burn is
`min(100, 1000) = 100` and the unbonding delegation keeps its balance of 200. -/
theorem Slash_at_block_height_skips_scan_witness :
    GetValidatorByPubKey sampleState 1 = some sampleValidator
    ∧ specKeeper.IsUnbonded sampleContext sampleValidator = false
    ∧ ZeroDec ≤ oneTenth
    ∧ (10 : Int) = sampleContext.BlockHeight
    ∧ Slash specKeeper sampleContext sampleState 1 10 1000 oneTenth
        = slashOverEntries specKeeper sampleContext sampleState sampleValidator [] [] 10 1000
            oneTenth
    ∧ Slash specKeeper sampleContext sampleState 1 10 1000 oneTenth
        = .returned (.slashed (NewDec 100))
            ⟨[{ sampleValidator with Tokens := NewDec 900 }], ⟨NewDec 4900⟩,
              [sampleUnbonding], [], []⟩ :=
  ⟨by decide, by decide, by decide, by decide,
    (Slash_at_block_height_skips_scan specKeeper sampleContext sampleState 1 10 1000 oneTenth
      sampleValidator (by decide) (by decide) (by decide) (by decide)).1,
    (Slash_at_block_height_skips_scan specKeeper sampleContext sampleState 1 10 1000 oneTenth
      sampleValidator (by decide) (by decide) (by decide) (by decide)).2.1.trans
      (by decide)⟩

/-! ## Lemmas on `slashRedelegation` for an eligible entry -/

theorem GetDelegation_redelegationBalanceUpdated (s : State) (r : Redelegation) (f : Dec)
    (d : AccAddress) (w : ValAddress) :
    GetDelegation (redelegationBalanceUpdated s r f) d w = GetDelegation s d w := by
  unfold redelegationBalanceUpdated
  split <;> rfl

theorem GetPool_redelegationBalanceUpdated (s : State) (r : Redelegation) (f : Dec) :
    GetPool (redelegationBalanceUpdated s r f) = GetPool s := by
  unfold redelegationBalanceUpdated
  split <;> rfl

theorem GetDelegation_ite_SetRedelegation (c : Prop) [Decidable c] (s : State)
    (x : Redelegation) (d : AccAddress) (w : ValAddress) :
    GetDelegation (if c then SetRedelegation s x else s) d w = GetDelegation s d w := by
  split <;> rfl

theorem clamp_shares_eq_MinDec (a b : Dec) : (if a.GT b then b else a) = MinDec a b := by
  unfold MinDec Dec.GT Dec.LT
  by_cases h1 : b.raw < a.raw
  · have h2 : ¬ a.raw < b.raw := by omega
    simp [h1, h2]
  · by_cases h2 : a.raw < b.raw
    · simp [h1, h2]
    · have : a.raw = b.raw := by omega
      simp [h1, h2]
      exact Dec.ext_raw this

theorem slashRedelegation_eligible (k : Keeper) (ctx : Context) (s : State) (v : Validator)
    (r : Redelegation) (h : Int) (f : Dec)
    (hheight : h ≤ r.CreationHeight) (htime : ¬ r.MinTime < ctx.Time) :
    slashRedelegation k ctx s v r h f
      = if (f.Mul r.SharesDst).IsZero then
          .returned ((NewDecFromInt r.InitialBalance.Amount).Mul f)
            (redelegationBalanceUpdated s r f)
        else
          match GetDelegation s r.DelegatorAddr r.ValidatorDstAddr with
          | none =>
            .returned ((NewDecFromInt r.InitialBalance.Amount).Mul f)
              (redelegationBalanceUpdated s r f)
          | some d =>
            match k.unbond ctx (redelegationBalanceUpdated s r f) r.DelegatorAddr
                r.ValidatorDstAddr (MinDec (f.Mul r.SharesDst) d.Shares) with
            | .error err => .panicked (.unbondError err) (redelegationBalanceUpdated s r f)
            | .ok (tokens, s2) =>
              .returned ((NewDecFromInt r.InitialBalance.Amount).Mul f)
                (SetPool s2
                  { GetPool s2 with LooseTokens := (GetPool s2).LooseTokens.Sub tokens }) := by
  unfold slashRedelegation redelegationBalanceUpdated clampedSlash Redelegation.withSlashed
  simp only [if_neg (not_lt.mpr hheight), if_neg htime, GetDelegation_ite_SetRedelegation,
    clamp_shares_eq_MinDec]
  by_cases hz : (f.Mul r.SharesDst).IsZero = true
  · simp only [hz, Bool.not_true, Bool.false_eq_true, if_false, if_true]
  · simp only [hz, Bool.not_eq_true] at hz ⊢
    simp only [hz, Bool.not_false, if_true, Bool.false_eq_true, if_false]

theorem GetRedelegation_redelegationBalanceUpdated (s : State) (r : Redelegation) (f : Dec)
    (hstored : GetRedelegation s r.DelegatorAddr r.ValidatorSrcAddr r.ValidatorDstAddr = some r) :
    GetRedelegation (redelegationBalanceUpdated s r f)
        r.DelegatorAddr r.ValidatorSrcAddr r.ValidatorDstAddr
      = some (r.withSlashed (clampedSlash r.InitialBalance.Amount r.Balance.Amount f)) := by
  unfold redelegationBalanceUpdated
  by_cases hz : clampedSlash r.InitialBalance.Amount r.Balance.Amount f = 0
  · rw [if_neg (by simpa using hz), hz, redelegation_withSlashed_zero]
    exact hstored
  · rw [if_pos hz]
    exact GetRedelegation_SetRedelegation s
      (r.withSlashed (clampedSlash r.InitialBalance.Amount r.Balance.Amount f))

/-! ## The claims on the ledger, redelegations and jailing -/

/-- C2: whenever `Slash` completes for an existing validator, the scan returned some
`remaining` on stores `s1`, and the amount `tokensToBurn = min(remaining, validator.Tokens)`
is the amount reported and the amount burned: the final stores are those of the burn of
`tokensToBurn` on `s1`, in which `RemoveTokens` is called on the validator with
`tokensToBurn`. It satisfies `tokensToBurn <= validator.Tokens`, so that
`validator.Tokens - tokensToBurn`, the tokens a `RemoveTokens` that subtracts leaves on the
validator, is not negative. -/
theorem Slash_burn_le_tokens
    (k : Keeper) (ctx : Context) (s : State) (pubkey : CryptoPubKey)
    (infractionHeight power : Int) (slashFactor : Dec)
    (validator : Validator) (report : SlashReport) (sFinal : State)
    (hfound : GetValidatorByPubKey s pubkey = some validator)
    (hdone : Slash k ctx s pubkey infractionHeight power slashFactor
      = .returned report sFinal) :
    ∃ remaining s1 tokensToBurn,
      scanEntries k ctx s validator infractionHeight ((NewDec power).Mul slashFactor)
          slashFactor = .returned remaining s1
      ∧ tokensToBurn = MinDec remaining validator.Tokens
      ∧ report = .slashed tokensToBurn
      ∧ sFinal = burnValidatorTokens k ctx s1 validator tokensToBurn
      ∧ updateBurnedValidator k ctx s1 validator tokensToBurn
          = k.UpdateValidator ctx
              (SetPool s1
                { (k.RemoveTokens validator (GetPool s1) tokensToBurn).2 with
                  LooseTokens :=
                    (k.RemoveTokens validator (GetPool s1) tokensToBurn).2.LooseTokens.Sub
                      tokensToBurn })
              (k.RemoveTokens validator (GetPool s1) tokensToBurn).1
      ∧ tokensToBurn ≤ validator.Tokens
      ∧ ZeroDec ≤ validator.Tokens.Sub tokensToBurn
      ∧ ((k.RemoveTokens validator (GetPool s1) tokensToBurn).1.Tokens
            = validator.Tokens.Sub tokensToBurn →
          ZeroDec ≤ (k.RemoveTokens validator (GetPool s1) tokensToBurn).1.Tokens) := by
  unfold Slash at hdone
  simp only [hfound] at hdone
  split at hdone
  · cases hdone
  · split at hdone
    · cases hdone
    · split at hdone
      · cases hdone
      · rename_i remaining s1 hscan
        simp only [Outcome.returned.injEq] at hdone
        have hle : MinDec remaining validator.Tokens ≤ validator.Tokens := by
          rw [Dec.le_def, MinDec_raw]
          exact min_le_right _ _
        have hsub : ZeroDec ≤ validator.Tokens.Sub (MinDec remaining validator.Tokens) := by
          rw [Dec.le_def]
          simp only [Dec.Sub, ZeroDec, MinDec_raw]
          have := min_le_right remaining.raw validator.Tokens.raw
          omega
        refine ⟨remaining, s1, MinDec remaining validator.Tokens, hscan, rfl, hdone.1.symm,
          hdone.2.symm, rfl, hle, hsub, ?_⟩
        intro hremoved
        rw [hremoved]
        exact hsub

/-- C2 on the scenario of the spec where the clamp acts: tokens 50, no entries, slash
amount 100: the remaining amount is 100, the burn is `min(100, 50) = 50`, `RemoveTokens`
of the sample keeper leaves 0 tokens on the validator, and the final stores are those of
the burn of 50. -/
theorem Slash_burn_le_tokens_witness :
    GetValidatorByPubKey poorState 1 = some poorValidator
    ∧ Slash specKeeper sampleContext poorState 1 5 1000 oneTenth
        = .returned (.slashed (NewDec 50)) poorSlashed
    ∧ scanEntries specKeeper sampleContext poorState poorValidator 5
        ((NewDec 1000).Mul oneTenth) oneTenth = .returned (NewDec 100) poorState
    ∧ MinDec (NewDec 100) poorValidator.Tokens = NewDec 50
    ∧ (specKeeper.RemoveTokens poorValidator (GetPool poorState) (NewDec 50)).1.Tokens
        = ZeroDec
    ∧ burnValidatorTokens specKeeper sampleContext poorState poorValidator (NewDec 50)
        = poorSlashed
    ∧ ∃ remaining s1 tokensToBurn,
      scanEntries specKeeper sampleContext poorState poorValidator 5
          ((NewDec 1000).Mul oneTenth) oneTenth = .returned remaining s1
      ∧ tokensToBurn = MinDec remaining poorValidator.Tokens
      ∧ SlashReport.slashed (NewDec 50) = .slashed tokensToBurn
      ∧ poorSlashed = burnValidatorTokens specKeeper sampleContext s1 poorValidator
          tokensToBurn
      ∧ updateBurnedValidator specKeeper sampleContext s1 poorValidator tokensToBurn
          = specKeeper.UpdateValidator sampleContext
              (SetPool s1
                { (specKeeper.RemoveTokens poorValidator (GetPool s1) tokensToBurn).2 with
                  LooseTokens :=
                    (specKeeper.RemoveTokens poorValidator (GetPool s1)
                      tokensToBurn).2.LooseTokens.Sub tokensToBurn })
              (specKeeper.RemoveTokens poorValidator (GetPool s1) tokensToBurn).1
      ∧ tokensToBurn ≤ poorValidator.Tokens
      ∧ ZeroDec ≤ poorValidator.Tokens.Sub tokensToBurn
      ∧ ((specKeeper.RemoveTokens poorValidator (GetPool s1) tokensToBurn).1.Tokens
            = poorValidator.Tokens.Sub tokensToBurn →
          ZeroDec ≤ (specKeeper.RemoveTokens poorValidator (GetPool s1)
            tokensToBurn).1.Tokens) :=
  ⟨by decide, by decide, by decide, by decide, by decide, by decide,
    Slash_burn_le_tokens specKeeper sampleContext poorState 1 5 1000 oneTenth
      poorValidator (.slashed (NewDec 50)) poorSlashed (by decide) (by decide)⟩

/-- C12: when `Slash` completes for an existing validator, the scan returned some
`remaining` on stores `s1`, the burn is `min(remaining, validator.Tokens)`, and the final
stores are those of `RemoveValidator`, called for the operator of the validator that
`UpdateValidator` returned, exactly when that validator has zero tokens; otherwise they
are the stores `UpdateValidator` left. -/
theorem Slash_removes_validator_iff_no_tokens
    (k : Keeper) (ctx : Context) (s : State) (pubkey : CryptoPubKey)
    (infractionHeight power : Int) (slashFactor : Dec)
    (validator : Validator) (report : SlashReport) (sFinal : State)
    (hfound : GetValidatorByPubKey s pubkey = some validator)
    (hdone : Slash k ctx s pubkey infractionHeight power slashFactor
      = .returned report sFinal) :
    ∃ remaining s1,
      scanEntries k ctx s validator infractionHeight ((NewDec power).Mul slashFactor)
          slashFactor = .returned remaining s1
      ∧ report = .slashed (MinDec remaining validator.Tokens)
      ∧ ((updateBurnedValidator k ctx s1 validator
            (MinDec remaining validator.Tokens)).1.Tokens.IsZero = true →
          sFinal = k.RemoveValidator ctx
            (updateBurnedValidator k ctx s1 validator (MinDec remaining validator.Tokens)).2
            (updateBurnedValidator k ctx s1 validator
              (MinDec remaining validator.Tokens)).1.Operator)
      ∧ ((updateBurnedValidator k ctx s1 validator
            (MinDec remaining validator.Tokens)).1.Tokens.IsZero = false →
          sFinal = (updateBurnedValidator k ctx s1 validator
            (MinDec remaining validator.Tokens)).2) := by
  have hfactor : ZeroDec ≤ slashFactor := by
    by_contra hc
    have hlt : slashFactor < ZeroDec := by
      rw [Dec.le_def] at hc
      rw [Dec.lt_def]
      omega
    unfold Slash at hdone
    simp [Dec.LT_zero_eq_true hlt] at hdone
  have hbonded : k.IsUnbonded ctx validator = false := by
    cases hb : k.IsUnbonded ctx validator with
    | false => rfl
    | true =>
      exfalso
      unfold Slash at hdone
      simp [Dec.LT_zero_eq_false hfactor, hfound, hb] at hdone
  rw [Slash_eq_scanEntries k ctx s pubkey infractionHeight power slashFactor validator hfound
    hbonded hfactor] at hdone
  cases hscan : scanEntries k ctx s validator infractionHeight ((NewDec power).Mul slashFactor)
      slashFactor with
  | panicked cause s1 =>
    rw [hscan] at hdone
    cases hdone
  | returned remaining s1 =>
    rw [hscan] at hdone
    simp only [Outcome.returned.injEq] at hdone
    refine ⟨remaining, s1, rfl, hdone.1.symm, ?_, ?_⟩
    · intro hz
      rw [← hdone.2, burnValidatorTokens_eq, if_pos hz]
    · intro hz
      rw [← hdone.2, burnValidatorTokens_eq, if_neg (by simp [hz])]

/-- C12 on the scenario of the spec: tokens 50, no entries, slash amount 100: the burn is
50, the validator is left with no tokens and is removed from the ledger; and on
`sampleState` the validator keeps 920 tokens and stays. -/
theorem Slash_removes_validator_iff_no_tokens_witness :
    GetValidatorByPubKey poorState 1 = some poorValidator
    ∧ Slash specKeeper sampleContext poorState 1 5 1000 oneTenth
        = .returned (.slashed (NewDec 50)) poorSlashed
    ∧ (updateBurnedValidator specKeeper sampleContext poorState poorValidator
        (NewDec 50)).1.Tokens = ZeroDec
    ∧ GetValidatorByPubKey sampleSlashed 1 = some { sampleValidator with Tokens := NewDec 920 }
    ∧ ∃ remaining s1,
      scanEntries specKeeper sampleContext poorState poorValidator 5
          ((NewDec 1000).Mul oneTenth) oneTenth = .returned remaining s1
      ∧ SlashReport.slashed (NewDec 50) = .slashed (MinDec remaining poorValidator.Tokens)
      ∧ ((updateBurnedValidator specKeeper sampleContext s1 poorValidator
            (MinDec remaining poorValidator.Tokens)).1.Tokens.IsZero = true →
          poorSlashed = specKeeper.RemoveValidator sampleContext
            (updateBurnedValidator specKeeper sampleContext s1 poorValidator
              (MinDec remaining poorValidator.Tokens)).2
            (updateBurnedValidator specKeeper sampleContext s1 poorValidator
              (MinDec remaining poorValidator.Tokens)).1.Operator)
      ∧ ((updateBurnedValidator specKeeper sampleContext s1 poorValidator
            (MinDec remaining poorValidator.Tokens)).1.Tokens.IsZero = false →
          poorSlashed
            = (updateBurnedValidator specKeeper sampleContext s1 poorValidator
              (MinDec remaining poorValidator.Tokens)).2) :=
  ⟨by decide, by decide, by decide, by decide,
    Slash_removes_validator_iff_no_tokens specKeeper sampleContext poorState 1 5 1000 oneTenth
      poorValidator (.slashed (NewDec 50)) poorSlashed
      (by decide) (by decide)⟩

/-- C13: for an eligible redelegation (`CreationHeight >= infractionHeight` and `MinTime`
not before the block time) on which `slashRedelegation` returns, the returned value is the
unclamped penalty `InitialBalance * slashFactor`; and when the entry is the stored record
of its key and the unbond primitive leaves the redelegation store alone, the record in the
store after the call has balance
`Balance - min(round(InitialBalance * slashFactor), Balance)`. -/
theorem slashRedelegation_returns_unclamped_penalty
    (k : Keeper) (ctx : Context) (s : State) (validator : Validator) (r : Redelegation)
    (infractionHeight : Int) (slashFactor : Dec) (amount : Dec) (s1 : State)
    (hheight : infractionHeight ≤ r.CreationHeight)
    (htime : ¬ r.MinTime < ctx.Time)
    (hret : slashRedelegation k ctx s validator r infractionHeight slashFactor
      = .returned amount s1) :
    amount = (NewDecFromInt r.InitialBalance.Amount).Mul slashFactor
    ∧ ((∀ c t d w sh tokens t1,
          k.unbond c t d w sh = .ok (tokens, t1) → t1.redelegations = t.redelegations) →
        GetRedelegation s r.DelegatorAddr r.ValidatorSrcAddr r.ValidatorDstAddr = some r →
        GetRedelegation s1 r.DelegatorAddr r.ValidatorSrcAddr r.ValidatorDstAddr
          = some { r with Balance := { r.Balance with
              Amount := r.Balance.Amount
                - MinInt ((NewDecFromInt r.InitialBalance.Amount).Mul slashFactor).RoundInt
                    r.Balance.Amount } }) := by
  constructor
  · have hnf := hret
    rw [slashRedelegation_eligible k ctx s validator r infractionHeight slashFactor hheight
      htime] at hnf
    split at hnf
    · simp only [Outcome.returned.injEq] at hnf
      exact hnf.1.symm
    · split at hnf
      · simp only [Outcome.returned.injEq] at hnf
        exact hnf.1.symm
      · split at hnf
        · cases hnf
        · simp only [Outcome.returned.injEq] at hnf
          exact hnf.1.symm
  · intro hunbond hstored
    have hst := slashRedelegation_stored k ctx s validator r infractionHeight slashFactor
      hunbond hstored hheight (not_lt.mp htime)
    rw [hret] at hst
    exact hst

/-- C13 on `sampleLedger` at factor 0.1: the call returns the penalty 10 and the stored
balance goes from 100 to 90. -/
theorem slashRedelegation_returns_unclamped_penalty_witness :
    (5 : Int) ≤ sampleRedelegation.CreationHeight
    ∧ ¬ sampleRedelegation.MinTime < sampleContext.Time
    ∧ slashRedelegation specKeeper sampleContext sampleLedger sampleValidator
        sampleRedelegation 5 oneTenth
        = .returned (NewDec 10) redelegationSlashed
    ∧ NewDec 10 = (NewDecFromInt sampleRedelegation.InitialBalance.Amount).Mul oneTenth
    ∧ GetRedelegation redelegationSlashed
        sampleRedelegation.DelegatorAddr sampleRedelegation.ValidatorSrcAddr
        sampleRedelegation.ValidatorDstAddr
        = some { sampleRedelegation with Balance := ⟨"steak", 90⟩ } :=
  ⟨by decide, by decide, by decide,
    (slashRedelegation_returns_unclamped_penalty specKeeper sampleContext sampleLedger
      sampleValidator sampleRedelegation 5 oneTenth (NewDec 10) redelegationSlashed
      (by decide) (by decide) (by decide)).1,
    ((slashRedelegation_returns_unclamped_penalty specKeeper sampleContext sampleLedger
      sampleValidator sampleRedelegation 5 oneTenth (NewDec 10) redelegationSlashed
      (by decide) (by decide) (by decide)).2 specKeeper_unbond_redelegations
      (by decide)).trans (by decide)⟩

/-- C14: for an eligible redelegation whose destination delegation exists and for which
`slashFactor * SharesDst` is not zero, `slashRedelegation` calls the unbond primitive for
(delegator, destination validator), on the stores left by the balance update, with
`min(slashFactor * SharesDst, delegation.Shares)` shares, which is at most
`delegation.Shares`; what the call gives decides the result. -/
theorem slashRedelegation_unbonds_clamped_shares
    (k : Keeper) (ctx : Context) (s : State) (validator : Validator) (r : Redelegation)
    (infractionHeight : Int) (slashFactor : Dec) (delegation : Delegation)
    (hheight : infractionHeight ≤ r.CreationHeight)
    (htime : ¬ r.MinTime < ctx.Time)
    (hshares : (slashFactor.Mul r.SharesDst).IsZero = false)
    (hdelegation : GetDelegation s r.DelegatorAddr r.ValidatorDstAddr = some delegation) :
    slashRedelegation k ctx s validator r infractionHeight slashFactor
        = (match k.unbond ctx (redelegationBalanceUpdated s r slashFactor) r.DelegatorAddr
              r.ValidatorDstAddr (MinDec (slashFactor.Mul r.SharesDst) delegation.Shares) with
          | .error err =>
            .panicked (.unbondError err) (redelegationBalanceUpdated s r slashFactor)
          | .ok (tokens, s2) =>
            .returned ((NewDecFromInt r.InitialBalance.Amount).Mul slashFactor)
              (SetPool s2
                { GetPool s2 with LooseTokens := (GetPool s2).LooseTokens.Sub tokens }))
    ∧ MinDec (slashFactor.Mul r.SharesDst) delegation.Shares ≤ delegation.Shares
    ∧ MinDec (slashFactor.Mul r.SharesDst) delegation.Shares ≤ slashFactor.Mul r.SharesDst := by
  refine ⟨?_, ?_, ?_⟩
  · rw [slashRedelegation_eligible k ctx s validator r infractionHeight slashFactor hheight
      htime, hshares, hdelegation]
    simp
  · rw [Dec.le_def, MinDec_raw]
    exact min_le_right _ _
  · rw [Dec.le_def, MinDec_raw]
    exact min_le_left _ _

/-- C14 on the scenario of the spec: 10 destination shares, factor 0.5, a delegation of 4
shares: 5 shares are clamped to 4, and the unbond of 4 shares empties the delegation. -/
theorem slashRedelegation_unbonds_clamped_shares_witness :
    (5 : Int) ≤ sampleRedelegation.CreationHeight
    ∧ ¬ sampleRedelegation.MinTime < sampleContext.Time
    ∧ (oneHalf.Mul sampleRedelegation.SharesDst).IsZero = false
    ∧ GetDelegation sampleLedger sampleRedelegation.DelegatorAddr
        sampleRedelegation.ValidatorDstAddr = some sampleDelegation
    ∧ oneHalf.Mul sampleRedelegation.SharesDst = NewDec 5
    ∧ MinDec (oneHalf.Mul sampleRedelegation.SharesDst) sampleDelegation.Shares = NewDec 4
    ∧ slashRedelegation specKeeper sampleContext sampleLedger sampleValidator
        sampleRedelegation 5 oneHalf = .returned (NewDec 50) redelegationHalved :=
  ⟨by decide, by decide, by decide, by decide, by decide, by decide,
    (slashRedelegation_unbonds_clamped_shares specKeeper sampleContext sampleLedger
      sampleValidator sampleRedelegation 5 oneHalf sampleDelegation (by decide) (by decide)
      (by decide) (by decide)).1.trans (by decide)⟩

/-- C15: for an eligible redelegation with `slashFactor * SharesDst` not zero whose
destination delegation does not exist, `slashRedelegation` returns the penalty
`InitialBalance * slashFactor` on the stores left by the balance update, whatever the
unbond primitive is: no abort, no unbond, the pool as it was, and the entry, when it is
the stored record of its key, stored with its balance reduced. -/
theorem slashRedelegation_without_destination_delegation
    (k : Keeper) (ctx : Context) (s : State) (validator : Validator) (r : Redelegation)
    (infractionHeight : Int) (slashFactor : Dec)
    (hheight : infractionHeight ≤ r.CreationHeight)
    (htime : ¬ r.MinTime < ctx.Time)
    (hshares : (slashFactor.Mul r.SharesDst).IsZero = false)
    (hdelegation : GetDelegation s r.DelegatorAddr r.ValidatorDstAddr = none) :
    slashRedelegation k ctx s validator r infractionHeight slashFactor
        = .returned ((NewDecFromInt r.InitialBalance.Amount).Mul slashFactor)
            (redelegationBalanceUpdated s r slashFactor)
    ∧ GetPool (redelegationBalanceUpdated s r slashFactor) = GetPool s
    ∧ (redelegationBalanceUpdated s r slashFactor).delegations = s.delegations
    ∧ (GetRedelegation s r.DelegatorAddr r.ValidatorSrcAddr r.ValidatorDstAddr = some r →
        GetRedelegation (redelegationBalanceUpdated s r slashFactor)
            r.DelegatorAddr r.ValidatorSrcAddr r.ValidatorDstAddr
          = some { r with Balance := { r.Balance with
              Amount := r.Balance.Amount
                - MinInt ((NewDecFromInt r.InitialBalance.Amount).Mul slashFactor).RoundInt
                    r.Balance.Amount } }) := by
  refine ⟨?_, GetPool_redelegationBalanceUpdated s r slashFactor, ?_, ?_⟩
  · rw [slashRedelegation_eligible k ctx s validator r infractionHeight slashFactor hheight
      htime, hshares, hdelegation]
    simp
  · unfold redelegationBalanceUpdated
    split <;> rfl
  · intro hstored
    exact GetRedelegation_redelegationBalanceUpdated s r slashFactor hstored

/-- C15 on `noDelegationLedger` at factor 0.1: the call returns the penalty 10, the stored
balance goes from 100 to 90 and the 5000 loose tokens stay. -/
theorem slashRedelegation_without_destination_delegation_witness :
    (5 : Int) ≤ sampleRedelegation.CreationHeight
    ∧ ¬ sampleRedelegation.MinTime < sampleContext.Time
    ∧ (oneTenth.Mul sampleRedelegation.SharesDst).IsZero = false
    ∧ GetDelegation noDelegationLedger sampleRedelegation.DelegatorAddr
        sampleRedelegation.ValidatorDstAddr = none
    ∧ slashRedelegation specKeeper sampleContext noDelegationLedger sampleValidator
        sampleRedelegation 5 oneTenth = .returned (NewDec 10) noDelegationSlashed :=
  ⟨by decide, by decide, by decide, by decide,
    (slashRedelegation_without_destination_delegation specKeeper sampleContext
      noDelegationLedger sampleValidator sampleRedelegation 5 oneTenth (by decide) (by decide)
      (by decide) (by decide)).1.trans (by decide)⟩

/-- C16: for an eligible redelegation: when the unbond primitive is called and succeeds
with `tokens` on stores `s2`, `slashRedelegation` returns the penalty on `s2` with
`tokens`, and nothing else, taken off the loose tokens read from `s2`; when no unbond
happens (`slashFactor * SharesDst` is zero or the destination delegation does not exist),
the pool is as it was. The penalty is not taken off the pool in either case. -/
theorem slashRedelegation_pool
    (k : Keeper) (ctx : Context) (s : State) (validator : Validator) (r : Redelegation)
    (infractionHeight : Int) (slashFactor : Dec)
    (hheight : infractionHeight ≤ r.CreationHeight)
    (htime : ¬ r.MinTime < ctx.Time) :
    (∀ delegation tokens s2,
      (slashFactor.Mul r.SharesDst).IsZero = false →
      GetDelegation s r.DelegatorAddr r.ValidatorDstAddr = some delegation →
      k.unbond ctx (redelegationBalanceUpdated s r slashFactor) r.DelegatorAddr
          r.ValidatorDstAddr (MinDec (slashFactor.Mul r.SharesDst) delegation.Shares)
        = .ok (tokens, s2) →
      slashRedelegation k ctx s validator r infractionHeight slashFactor
          = .returned ((NewDecFromInt r.InitialBalance.Amount).Mul slashFactor)
              (SetPool s2
                { GetPool s2 with LooseTokens := (GetPool s2).LooseTokens.Sub tokens })
        ∧ (GetPool (slashRedelegation k ctx s validator r infractionHeight
              slashFactor).state).LooseTokens
            = (GetPool s2).LooseTokens.Sub tokens)
    ∧ ((slashFactor.Mul r.SharesDst).IsZero = true
          ∨ GetDelegation s r.DelegatorAddr r.ValidatorDstAddr = none →
        slashRedelegation k ctx s validator r infractionHeight slashFactor
            = .returned ((NewDecFromInt r.InitialBalance.Amount).Mul slashFactor)
                (redelegationBalanceUpdated s r slashFactor)
          ∧ GetPool (slashRedelegation k ctx s validator r infractionHeight
              slashFactor).state = GetPool s) := by
  have hnf := slashRedelegation_eligible k ctx s validator r infractionHeight slashFactor
    hheight htime
  constructor
  · intro delegation tokens s2 hshares hdelegation hok
    have heq : slashRedelegation k ctx s validator r infractionHeight slashFactor
        = .returned ((NewDecFromInt r.InitialBalance.Amount).Mul slashFactor)
            (SetPool s2
              { GetPool s2 with LooseTokens := (GetPool s2).LooseTokens.Sub tokens }) := by
      rw [hnf, hshares, hdelegation]
      simp only [Bool.false_eq_true, if_false, hok]
    refine ⟨heq, ?_⟩
    rw [heq]
    rfl
  · intro hnone
    have heq : slashRedelegation k ctx s validator r infractionHeight slashFactor
        = .returned ((NewDecFromInt r.InitialBalance.Amount).Mul slashFactor)
            (redelegationBalanceUpdated s r slashFactor) := by
      rw [hnf]
      by_cases hz : (slashFactor.Mul r.SharesDst).IsZero = true
      · simp only [hz, if_true]
      · have hdel : GetDelegation s r.DelegatorAddr r.ValidatorDstAddr = none :=
          hnone.resolve_left hz
        simp only [hz, Bool.false_eq_true, if_false, hdel]
    refine ⟨heq, ?_⟩
    rw [heq]
    exact GetPool_redelegationBalanceUpdated s r slashFactor

/-- C16 on `sampleLedger` at factor 0.1: one share is unbonded for one token, and the loose
tokens go from 5000 to 4999, not to 4990: the penalty 10 is not taken off the pool. -/
theorem slashRedelegation_pool_witness :
    (5 : Int) ≤ sampleRedelegation.CreationHeight
    ∧ ¬ sampleRedelegation.MinTime < sampleContext.Time
    ∧ (GetPool sampleLedger).LooseTokens = NewDec 5000
    ∧ (NewDecFromInt sampleRedelegation.InitialBalance.Amount).Mul oneTenth = NewDec 10
    ∧ (GetPool (slashRedelegation specKeeper sampleContext sampleLedger sampleValidator
        sampleRedelegation 5 oneTenth).state).LooseTokens = NewDec 4999 :=
  ⟨by decide, by decide, by decide, by decide,
    (((slashRedelegation_pool specKeeper sampleContext sampleLedger sampleValidator
      sampleRedelegation 5 oneTenth (by decide) (by decide)).1 sampleDelegation (NewDec 1)
      { sampleLedger with
        redelegations := [{ sampleRedelegation with Balance := ⟨"steak", 90⟩ }]
        delegations := [{ sampleDelegation with Shares := NewDec 3 }] }
      (by decide) (by decide) (by rfl)).2).trans (by decide)⟩

/-- C17: when a validator matches the public key, `Jail` hands to `UpdateValidator` the
validator it looked up with `Jailed` set and every other field as it was, and `Unjail` the
same with `Jailed` cleared; when none matches, both panic on the stores as they found
them, without a call of `UpdateValidator`. -/
theorem Jail_and_Unjail_set_the_flag
    (k : Keeper) (ctx : Context) (s : State) (pubkey : CryptoPubKey) :
    match GetValidatorByPubKey s pubkey with
    | some validator =>
      Jail k ctx s pubkey
          = .returned () (k.UpdateValidator ctx s
              ⟨validator.Operator, validator.PubKey, true, validator.Status,
                validator.Tokens⟩).2
        ∧ Unjail k ctx s pubkey
          = .returned () (k.UpdateValidator ctx s
              ⟨validator.Operator, validator.PubKey, false, validator.Status,
                validator.Tokens⟩).2
    | none =>
      Jail k ctx s pubkey = .panicked .validatorNotFound s
        ∧ Unjail k ctx s pubkey = .panicked .validatorNotFound s := by
  unfold Jail Unjail setJailed
  cases GetValidatorByPubKey s pubkey with
  | none => exact ⟨rfl, rfl⟩
  | some validator => exact ⟨rfl, rfl⟩

/-- C17 on `sampleState`, where public key 1 is known and public key 2 is not. -/
theorem Jail_and_Unjail_set_the_flag_witness :
    Jail specKeeper sampleContext sampleState 1 = .returned () sampleJailed
    ∧ Unjail specKeeper sampleContext sampleJailed 1 = .returned () sampleState
    ∧ Jail specKeeper sampleContext sampleState 2 = .panicked .validatorNotFound sampleState
    ∧ Unjail specKeeper sampleContext sampleState 2
        = .panicked .validatorNotFound sampleState :=
  ⟨(Jail_and_Unjail_set_the_flag specKeeper sampleContext sampleState 1).1.trans (by decide),
    (Jail_and_Unjail_set_the_flag specKeeper sampleContext sampleJailed 1).2.trans
      (by decide),
    (Jail_and_Unjail_set_the_flag specKeeper sampleContext sampleState 2).1,
    (Jail_and_Unjail_set_the_flag specKeeper sampleContext sampleState 2).2⟩

/-! ## Repeated slashes of one unbonding delegation -/

theorem chopPrecisionAndRound_mul_unit (p : Int) :
    chopPrecisionAndRound (p * Dec.unit) = p := by
  unfold chopPrecisionAndRound Dec.unit
  omega

theorem penalty_raw (i : Int) (f : Dec) : ((NewDecFromInt i).Mul f).raw = i * f.raw := by
  unfold Dec.Mul NewDecFromInt
  have hmul : i * Dec.unit * f.raw = (i * f.raw) * Dec.unit := by ring
  simp only [hmul, chopPrecisionAndRound_mul_unit]

theorem clampedSlash_eq (i b : Int) (f : Dec) :
    clampedSlash i b f = min (chopPrecisionAndRound (i * f.raw)) b := by
  unfold clampedSlash
  rw [MinInt_eq_min]
  unfold Dec.RoundInt
  rw [penalty_raw]

theorem unbondingBalance_twice (ctx : Context) (s : State) (u : UnbondingDelegation)
    (h : Int) (f1 f2 : Dec)
    (hstored : GetUnbondingDelegation s u.DelegatorAddr u.ValidatorAddr = some u)
    (hheight : h ≤ u.CreationHeight) (htime : ctx.Time ≤ u.MinTime) :
    unbondingBalance (slashUnbondingDelegationTwice ctx s u h f1 f2)
        u.DelegatorAddr u.ValidatorAddr
      = some (u.Balance.Amount - clampedSlash u.InitialBalance.Amount u.Balance.Amount f1
          - clampedSlash u.InitialBalance.Amount
              (u.Balance.Amount - clampedSlash u.InitialBalance.Amount u.Balance.Amount f1)
              f2) := by
  have h1 := slashUnbondingDelegation_stored ctx s u h f1 hstored hheight htime
  have h2 := slashUnbondingDelegation_stored ctx (slashUnbondingDelegation ctx s u h f1).2
    (u.withSlashed (clampedSlash u.InitialBalance.Amount u.Balance.Amount f1)) h f2 h1
    hheight htime
  unfold slashUnbondingDelegationTwice unbondingBalance
  simp only [h1]
  rw [show u.DelegatorAddr
      = (u.withSlashed (clampedSlash u.InitialBalance.Amount u.Balance.Amount
          f1)).DelegatorAddr from rfl,
    show u.ValidatorAddr
      = (u.withSlashed (clampedSlash u.InitialBalance.Amount u.Balance.Amount
          f1)).ValidatorAddr from rfl, h2]
  rfl

theorem unbondingBalance_once (ctx : Context) (s : State) (u : UnbondingDelegation)
    (h : Int) (f : Dec)
    (hstored : GetUnbondingDelegation s u.DelegatorAddr u.ValidatorAddr = some u)
    (hheight : h ≤ u.CreationHeight) (htime : ctx.Time ≤ u.MinTime) :
    unbondingBalance (slashUnbondingDelegation ctx s u h f).2 u.DelegatorAddr u.ValidatorAddr
      = some (u.Balance.Amount - clampedSlash u.InitialBalance.Amount u.Balance.Amount f) := by
  unfold unbondingBalance
  rw [slashUnbondingDelegation_stored ctx s u h f hstored hheight htime]
  rfl

/-- C18, as stated, fails: an eligible unbonding delegation with balance and initial
balance 1000, slashed by 0.5 and again by 0.5, is left with balance 0, while one slash by
`1 - (1 - 0.5)(1 - 0.5) = 0.75` leaves 250. -/
theorem slashing_twice_is_not_the_combined_fraction :
    GetUnbondingDelegation fullState fullUnbonding.DelegatorAddr fullUnbonding.ValidatorAddr
        = some fullUnbonding
    ∧ (5 : Int) ≤ fullUnbonding.CreationHeight
    ∧ ¬ fullUnbonding.MinTime < sampleContext.Time
    ∧ fullUnbonding.Balance.Amount = fullUnbonding.InitialBalance.Amount
    ∧ ZeroDec ≤ oneHalf ∧ oneHalf ≤ NewDec 1
    ∧ combinedFraction oneHalf oneHalf = Dec.mk 7500000000
    ∧ unbondingBalance
        (slashUnbondingDelegationTwice sampleContext fullState fullUnbonding 5 oneHalf oneHalf)
        fullUnbonding.DelegatorAddr fullUnbonding.ValidatorAddr = some 0
    ∧ unbondingBalance
        (slashUnbondingDelegation sampleContext fullState fullUnbonding 5
          (combinedFraction oneHalf oneHalf)).2
        fullUnbonding.DelegatorAddr fullUnbonding.ValidatorAddr = some 250 := by
  decide

/-- C18, amended: for an eligible unbonding delegation that is the stored record of its
key, with `Balance = InitialBalance >= 0`, and fractions `f1`, `f2` that are not negative
(those of `[0, 1]` among them), slashing with `f1` and then with `f2` leaves the same
balance as one slash with the fraction `f1 + f2`, up to rounding: the two balances are at
most 1 apart, and neither is negative. -/
theorem slashing_twice_adds_the_fractions
    (ctx : Context) (s : State) (u : UnbondingDelegation) (infractionHeight : Int)
    (f1 f2 : Dec)
    (hstored : GetUnbondingDelegation s u.DelegatorAddr u.ValidatorAddr = some u)
    (hheight : infractionHeight ≤ u.CreationHeight)
    (htime : ¬ u.MinTime < ctx.Time)
    (hfull : u.Balance.Amount = u.InitialBalance.Amount)
    (hinitial : 0 ≤ u.InitialBalance.Amount)
    (hf1 : ZeroDec ≤ f1) (hf2 : ZeroDec ≤ f2) :
    ∃ twice once : Int,
      unbondingBalance (slashUnbondingDelegationTwice ctx s u infractionHeight f1 f2)
          u.DelegatorAddr u.ValidatorAddr = some twice
      ∧ unbondingBalance (slashUnbondingDelegation ctx s u infractionHeight (f1.Add f2)).2
          u.DelegatorAddr u.ValidatorAddr = some once
      ∧ twice ≤ once + 1 ∧ once ≤ twice + 1 ∧ 0 ≤ twice ∧ 0 ≤ once := by
  have ht : ctx.Time ≤ u.MinTime := not_lt.mp htime
  refine ⟨_, _, unbondingBalance_twice ctx s u infractionHeight f1 f2 hstored hheight ht,
    unbondingBalance_once ctx s u infractionHeight (f1.Add f2) hstored hheight ht, ?_⟩
  have h1 : (0 : Int) ≤ f1.raw := hf1
  have h2 : (0 : Int) ≤ f2.raw := hf2
  have hp1 : 0 ≤ u.InitialBalance.Amount * f1.raw := mul_nonneg hinitial h1
  have hp2 : 0 ≤ u.InitialBalance.Amount * f2.raw := mul_nonneg hinitial h2
  have hadd : u.InitialBalance.Amount * (f1.Add f2).raw
      = u.InitialBalance.Amount * f1.raw + u.InitialBalance.Amount * f2.raw := by
    simp only [Dec.Add]
    ring
  simp only [clampedSlash_eq, hadd, hfull]
  generalize u.InitialBalance.Amount * f1.raw = p1 at hp1 ⊢
  generalize u.InitialBalance.Amount * f2.raw = p2 at hp2 ⊢
  generalize u.InitialBalance.Amount = i at hinitial ⊢
  unfold chopPrecisionAndRound Dec.unit
  omega

/-- C18, amended, on `fullState`: slashed by 0.5 twice, and slashed by 1 once, the entry
is left with balance 0. -/
theorem slashing_twice_adds_the_fractions_witness :
    GetUnbondingDelegation fullState fullUnbonding.DelegatorAddr fullUnbonding.ValidatorAddr
        = some fullUnbonding
    ∧ (5 : Int) ≤ fullUnbonding.CreationHeight
    ∧ ¬ fullUnbonding.MinTime < sampleContext.Time
    ∧ fullUnbonding.Balance.Amount = fullUnbonding.InitialBalance.Amount
    ∧ 0 ≤ fullUnbonding.InitialBalance.Amount
    ∧ ZeroDec ≤ oneHalf ∧ oneHalf ≤ NewDec 1
    ∧ oneHalf.Add oneHalf = NewDec 1
    ∧ unbondingBalance
        (slashUnbondingDelegation sampleContext fullState fullUnbonding 5
          (oneHalf.Add oneHalf)).2
        fullUnbonding.DelegatorAddr fullUnbonding.ValidatorAddr = some 0
    ∧ ∃ twice once : Int,
      unbondingBalance
          (slashUnbondingDelegationTwice sampleContext fullState fullUnbonding 5 oneHalf
            oneHalf)
          fullUnbonding.DelegatorAddr fullUnbonding.ValidatorAddr = some twice
      ∧ unbondingBalance
          (slashUnbondingDelegation sampleContext fullState fullUnbonding 5
            (oneHalf.Add oneHalf)).2
          fullUnbonding.DelegatorAddr fullUnbonding.ValidatorAddr = some once
      ∧ twice ≤ once + 1 ∧ once ≤ twice + 1 ∧ 0 ≤ twice ∧ 0 ≤ once :=
  ⟨by decide, by decide, by decide, by decide, by decide, by decide, by decide, by decide,
    by decide,
    slashing_twice_adds_the_fractions sampleContext fullState fullUnbonding 5 oneHalf oneHalf
      (by decide) (by decide) (by decide) (by decide) (by decide) (by decide) (by decide)⟩

/-! ## The order of the unbonding delegations in the scan -/

theorem slashUnbondingDelegation_eq_effect (ctx : Context) (s : State)
    (u : UnbondingDelegation) (h : Int) (f : Dec) :
    slashUnbondingDelegation ctx s u h f
      = ((unbondingEffect ctx u h f).1, applyUnbondingEffect s (unbondingEffect ctx u h f)) := by
  unfold slashUnbondingDelegation unbondingEffect applyUnbondingEffect clampedSlash
    UnbondingDelegation.withSlashed
  simp only []
  split
  · rfl
  · split
    · rfl
    · split <;> rfl

theorem slashUnbondingDelegations_cons (ctx : Context) (h : Int) (f : Dec)
    (u : UnbondingDelegation) (us : List UnbondingDelegation) (rem : Dec) (s : State) :
    slashUnbondingDelegations ctx h f (u :: us) rem s
      = slashUnbondingDelegations ctx h f us (rem.Sub (unbondingEffect ctx u h f).1)
          (applyUnbondingEffect s (unbondingEffect ctx u h f)) := by
  simp only [slashUnbondingDelegations, slashUnbondingDelegation_eq_effect]
  split
  · rename_i hz
    have hz0 : (unbondingEffect ctx u h f).1.raw = 0 := by simpa [Dec.IsZero] using hz
    have hrem : rem.Sub (unbondingEffect ctx u h f).1 = rem := by
      apply Dec.ext_raw
      simp [Dec.Sub, hz0]
    rw [hrem]
  · rfl

theorem unbondingEffect_written (ctx : Context) (u w : UnbondingDelegation) (h : Int) (f : Dec)
    (hw : (unbondingEffect ctx u h f).2 = some w) :
    w.DelegatorAddr = u.DelegatorAddr ∧ w.ValidatorAddr = u.ValidatorAddr := by
  unfold unbondingEffect at hw
  split at hw
  · cases hw
  · split at hw
    · cases hw
    · split at hw
      · simp only [Option.some.injEq] at hw
        subst hw
        exact ⟨rfl, rfl⟩
      · cases hw

theorem storePut_comm {α : Type} (p q : α → Bool) (x y : α)
    (hpy : p y = false) (hqx : q x = false)
    (hdisjoint : ∀ z, p z = true → q z = true → False) :
    ∀ l : List α, (∃ z ∈ l, p z = true ∨ q z = true) →
      storePut p x (storePut q y l) = storePut q y (storePut p x l) := by
  intro l
  induction l with
  | nil =>
    intro hpres
    obtain ⟨z, hz, _⟩ := hpres
    cases hz
  | cons z zs ih =>
    intro hpres
    by_cases hpz : p z = true
    · have hqz : q z = false := by
        cases hq : q z with
        | false => rfl
        | true => exact (hdisjoint z hpz hq).elim
      simp [storePut, hpz, hqz, hqx]
    · by_cases hqz : q z = true
      · simp [storePut, hpz, hqz, hpy]
      · have hrest : ∃ w ∈ zs, p w = true ∨ q w = true := by
          obtain ⟨w, hw, hpq⟩ := hpres
          rcases List.mem_cons.mp hw with rfl | hw
          · rcases hpq with h1 | h1
            · exact (hpz h1).elim
            · exact (hqz h1).elim
          · exact ⟨w, hw, hpq⟩
        simp [storePut, hpz, hqz, ih hrest]

theorem storePut_keeps_keys (w : UnbondingDelegation) :
    ∀ (l : List UnbondingDelegation) (z : UnbondingDelegation), z ∈ l →
      ∃ z1 ∈ storePut (fun u => u.DelegatorAddr == w.DelegatorAddr
          && u.ValidatorAddr == w.ValidatorAddr) w l,
        z1.DelegatorAddr = z.DelegatorAddr ∧ z1.ValidatorAddr = z.ValidatorAddr := by
  intro l
  induction l with
  | nil => intro z hz; cases hz
  | cons y ys ih =>
    intro z hz
    unfold storePut
    by_cases hy : (y.DelegatorAddr == w.DelegatorAddr && y.ValidatorAddr == w.ValidatorAddr)
        = true
    · simp only [hy, if_true]
      rcases List.mem_cons.mp hz with rfl | hz
      · simp only [Bool.and_eq_true, beq_iff_eq] at hy
        exact ⟨w, List.mem_cons_self _ _, hy.1.symm, hy.2.symm⟩
      · exact ⟨z, List.mem_cons_of_mem _ hz, rfl, rfl⟩
    · simp only [hy, if_false]
      rcases List.mem_cons.mp hz with rfl | hz
      · exact ⟨z, List.mem_cons_self _ _, rfl, rfl⟩
      · obtain ⟨z1, hz1, hk⟩ := ih z hz
        exact ⟨z1, List.mem_cons_of_mem _ hz1, hk⟩

theorem applyUnbondingEffect_keeps_keys (s : State) (e : Dec × Option UnbondingDelegation)
    (z : UnbondingDelegation) (hz : z ∈ s.unbondingDelegations) :
    ∃ z1 ∈ (applyUnbondingEffect s e).unbondingDelegations,
      z1.DelegatorAddr = z.DelegatorAddr ∧ z1.ValidatorAddr = z.ValidatorAddr := by
  unfold applyUnbondingEffect
  cases he : e.2 with
  | none => exact ⟨z, hz, rfl, rfl⟩
  | some w => exact storePut_keeps_keys w s.unbondingDelegations z hz

theorem applyUnbondingEffect_comm (s : State) (e1 e2 : Dec × Option UnbondingDelegation)
    (hkeys : ∀ w1 w2, e1.2 = some w1 → e2.2 = some w2 → w1.DelegatorAddr ≠ w2.DelegatorAddr)
    (hstored : ∀ w1, e1.2 = some w1 →
      ∃ z ∈ s.unbondingDelegations,
        z.DelegatorAddr = w1.DelegatorAddr ∧ z.ValidatorAddr = w1.ValidatorAddr) :
    applyUnbondingEffect (applyUnbondingEffect s e1) e2
      = applyUnbondingEffect (applyUnbondingEffect s e2) e1 := by
  obtain ⟨a1, o1⟩ := e1
  obtain ⟨a2, o2⟩ := e2
  cases o1 with
  | none => rfl
  | some w1 =>
    cases o2 with
    | none => rfl
    | some w2 =>
      have hne : w1.DelegatorAddr ≠ w2.DelegatorAddr := hkeys w1 w2 rfl rfl
      obtain ⟨z, hz, hzk⟩ := hstored w1 rfl
      have hstore : storePut (fun u => u.DelegatorAddr == w2.DelegatorAddr
              && u.ValidatorAddr == w2.ValidatorAddr) w2
            (storePut (fun u => u.DelegatorAddr == w1.DelegatorAddr
              && u.ValidatorAddr == w1.ValidatorAddr) w1 s.unbondingDelegations)
          = storePut (fun u => u.DelegatorAddr == w1.DelegatorAddr
              && u.ValidatorAddr == w1.ValidatorAddr) w1
            (storePut (fun u => u.DelegatorAddr == w2.DelegatorAddr
              && u.ValidatorAddr == w2.ValidatorAddr) w2 s.unbondingDelegations) := by
        apply storePut_comm
        · simp [hne]
        · simp [Ne.symm hne]
        · intro y h2 h1
          simp only [Bool.and_eq_true, beq_iff_eq] at h1 h2
          exact hne (h1.1.symm.trans h2.1)
        · exact ⟨z, hz, Or.inr (by simp [hzk.1, hzk.2])⟩
      have hpool : ((s.pool.LooseTokens.Sub a1).Sub a2) = ((s.pool.LooseTokens.Sub a2).Sub a1) := by
        apply Dec.ext_raw
        simp only [Dec.Sub]
        omega
      simp only [applyUnbondingEffect, SetPool, SetUnbondingDelegation, GetPool, hstore, hpool]

theorem slashUnbondingDelegations_perm (ctx : Context) (h : Int) (f : Dec)
    {l1 l2 : List UnbondingDelegation} (hp : l1.Perm l2) :
    ∀ (rem : Dec) (s : State),
      l1.Pairwise (fun a b => a.DelegatorAddr ≠ b.DelegatorAddr) →
      (∀ u ∈ l1, ∃ z ∈ s.unbondingDelegations,
        z.DelegatorAddr = u.DelegatorAddr ∧ z.ValidatorAddr = u.ValidatorAddr) →
      slashUnbondingDelegations ctx h f l1 rem s
        = slashUnbondingDelegations ctx h f l2 rem s := by
  induction hp with
  | nil => intro rem s _ _; rfl
  | cons x _ ih =>
    intro rem s hpw hstored
    rw [slashUnbondingDelegations_cons, slashUnbondingDelegations_cons]
    apply ih
    · exact (List.pairwise_cons.mp hpw).2
    · intro u hu
      obtain ⟨z, hz, hk⟩ := hstored u (List.mem_cons_of_mem _ hu)
      obtain ⟨z1, hz1, hk1⟩ := applyUnbondingEffect_keeps_keys s (unbondingEffect ctx x h f) z hz
      exact ⟨z1, hz1, hk1.1.trans hk.1, hk1.2.trans hk.2⟩
  | swap x y l =>
    intro rem s hpw hstored
    rw [slashUnbondingDelegations_cons, slashUnbondingDelegations_cons,
      slashUnbondingDelegations_cons, slashUnbondingDelegations_cons]
    have hyx : y.DelegatorAddr ≠ x.DelegatorAddr :=
      (List.pairwise_cons.mp hpw).1 x (List.mem_cons_self _ _)
    have hrem : (rem.Sub (unbondingEffect ctx y h f).1).Sub (unbondingEffect ctx x h f).1
        = (rem.Sub (unbondingEffect ctx x h f).1).Sub (unbondingEffect ctx y h f).1 := by
      apply Dec.ext_raw
      simp only [Dec.Sub]
      omega
    have hstate : applyUnbondingEffect (applyUnbondingEffect s (unbondingEffect ctx y h f))
          (unbondingEffect ctx x h f)
        = applyUnbondingEffect (applyUnbondingEffect s (unbondingEffect ctx x h f))
          (unbondingEffect ctx y h f) := by
      apply applyUnbondingEffect_comm
      · intro w1 w2 h1 h2
        rw [(unbondingEffect_written ctx y w1 h f h1).1,
          (unbondingEffect_written ctx x w2 h f h2).1]
        exact hyx
      · intro w1 h1
        obtain ⟨z, hz, hk⟩ := hstored y (List.mem_cons_self _ _)
        have hw := unbondingEffect_written ctx y w1 h f h1
        exact ⟨z, hz, hk.1.trans hw.1.symm, hk.2.trans hw.2.symm⟩
    rw [hrem, hstate]
  | trans hp1 _ ih1 ih2 =>
    intro rem s hpw hstored
    rw [ih1 rem s hpw hstored]
    apply ih2
    · exact hp1.pairwise hpw (fun hne => Ne.symm hne)
    · intro u hu
      exact hstored u (hp1.mem_iff.mpr hu)

/-- C19: when the unbonding delegations from a validator have pairwise distinct
delegators, the scan of `Slash` over any permutation of their list gives the same remaining
slash amount and the same stores (so the same balance of every entry and the same pool) as
the scan over the list itself; hence the past-height course over the permuted list gives
the same result, burn and validator tokens included, and it is the result of `Slash`. -/
theorem unbonding_scan_order_is_irrelevant
    (ctx : Context) (s : State) (valAddr : ValAddress)
    (permuted : List UnbondingDelegation) (infractionHeight : Int) (slashFactor : Dec)
    (hperm : permuted.Perm (GetUnbondingDelegationsFromValidator s valAddr))
    (hdistinct : (GetUnbondingDelegationsFromValidator s valAddr).Pairwise
      (fun a b => a.DelegatorAddr ≠ b.DelegatorAddr)) :
    (∀ remaining,
      slashUnbondingDelegations ctx infractionHeight slashFactor permuted remaining s
        = slashUnbondingDelegations ctx infractionHeight slashFactor
            (GetUnbondingDelegationsFromValidator s valAddr) remaining s)
    ∧ (∀ k validator redelegations power,
      slashOverEntries k ctx s validator permuted redelegations infractionHeight power
          slashFactor
        = slashOverEntries k ctx s validator (GetUnbondingDelegationsFromValidator s valAddr)
            redelegations infractionHeight power slashFactor)
    ∧ (∀ k pubkey power validator,
      GetValidatorByPubKey s pubkey = some validator →
      validator.Operator = valAddr →
      k.IsUnbonded ctx validator = false →
      ZeroDec ≤ slashFactor →
      infractionHeight < ctx.BlockHeight →
      Slash k ctx s pubkey infractionHeight power slashFactor
        = slashOverEntries k ctx s validator permuted
            (GetRedelegationsFromValidator s valAddr) infractionHeight power slashFactor) := by
  have hscan : ∀ remaining,
      slashUnbondingDelegations ctx infractionHeight slashFactor permuted remaining s
        = slashUnbondingDelegations ctx infractionHeight slashFactor
            (GetUnbondingDelegationsFromValidator s valAddr) remaining s := by
    intro remaining
    apply slashUnbondingDelegations_perm ctx infractionHeight slashFactor hperm
    · exact hperm.symm.pairwise hdistinct (fun hne => Ne.symm hne)
    · intro u hu
      have hmem : u ∈ GetUnbondingDelegationsFromValidator s valAddr := hperm.mem_iff.mp hu
      unfold GetUnbondingDelegationsFromValidator at hmem
      exact ⟨u, (List.mem_filter.mp hmem).1, rfl, rfl⟩
  refine ⟨hscan, ?_, ?_⟩
  · intro k validator redelegations power
    unfold slashOverEntries
    rw [hscan]
  · intro k pubkey power validator hfound hop hbonded hfactor hpast
    rw [Slash_past_eq_slashOverEntries k ctx s pubkey infractionHeight power slashFactor
      validator hfound hbonded hfactor hpast, hop]
    unfold slashOverEntries
    rw [hscan]

/-- C19 on `pairState`, whose validator has two unbonding delegations, of delegators 3 and
4: scanned in the reverse order, they leave the same remaining amount 50 and the same
stores. -/
theorem unbonding_scan_order_is_irrelevant_witness :
    [secondUnbonding, sampleUnbonding].Perm (GetUnbondingDelegationsFromValidator pairState 7)
    ∧ (GetUnbondingDelegationsFromValidator pairState 7).Pairwise
        (fun a b => a.DelegatorAddr ≠ b.DelegatorAddr)
    ∧ slashUnbondingDelegations sampleContext 5 oneTenth
        (GetUnbondingDelegationsFromValidator pairState 7) (NewDec 100) pairState
        = (NewDec 50, pairScanned)
    ∧ slashUnbondingDelegations sampleContext 5 oneTenth [secondUnbonding, sampleUnbonding]
        (NewDec 100) pairState = (NewDec 50, pairScanned) :=
  ⟨List.Perm.swap sampleUnbonding secondUnbonding [], by decide, by decide,
    ((unbonding_scan_order_is_irrelevant sampleContext pairState 7
      [secondUnbonding, sampleUnbonding] 5 oneTenth
      (List.Perm.swap sampleUnbonding secondUnbonding []) (by decide)).1 (NewDec 100)).trans
      (by decide)⟩

/-! ## The sign of the burn -/

/-- C21, the code at the failing input: a bonded validator with 1000 tokens, power 100 at
the infraction height 4, factor 0.1, a block of height 10, and one eligible unbonding
delegation, created at height 5, with initial balance 200. The slash amount is 10 and the
unbonding delegation is credited with 20, so the remaining amount is -10 and `Slash` burns
`min(-10, 1000) = -10`, for every keeper: under the sample keeper the validator goes from
1000 to 1010 tokens and the final pool deduction takes the loose tokens from 4980 up to
4990. In general the burn `MinDec remaining tokens` is not negative exactly when
`remaining` is not negative. -/
theorem Slash_burns_a_negative_amount_when_overcredited :
    (GetValidatorByPubKey sampleState 1 = some sampleValidator
    ∧ specKeeper.IsUnbonded sampleContext sampleValidator = false
    ∧ ZeroDec ≤ sampleValidator.Tokens
    ∧ (0 : Int) ≤ 100
    ∧ ZeroDec ≤ oneTenth
    ∧ (4 : Int) ≤ sampleContext.BlockHeight
    ∧ (∀ u ∈ sampleState.unbondingDelegations, 0 ≤ u.InitialBalance.Amount)
    ∧ (∀ r ∈ sampleState.redelegations, 0 ≤ r.InitialBalance.Amount)
    ∧ (NewDec 100).Mul oneTenth = NewDec 10
    ∧ (unbondingReturns sampleContext 4 oneTenth
        (GetUnbondingDelegationsFromValidator sampleState sampleValidator.Operator)
        sampleState).1 = [NewDec 20]
    ∧ Slash specKeeper sampleContext sampleState 1 4 100 oneTenth
        = .returned (.slashed (NewDec (-10))) overcreditedSlashed
    ∧ NewDec (-10) < ZeroDec
    ∧ GetValidatorByPubKey overcreditedSlashed 1
        = some { sampleValidator with Tokens := NewDec 1010 }
    ∧ sampleValidator.Tokens < NewDec 1010
    ∧ (GetPool overcreditedScanned).LooseTokens.Sub (NewDec (-10))
        = (GetPool overcreditedSlashed).LooseTokens
    ∧ (GetPool overcreditedScanned).LooseTokens < (GetPool overcreditedSlashed).LooseTokens)
    ∧ (∀ k : Keeper, k.IsUnbonded sampleContext sampleValidator = false →
        Slash k sampleContext sampleState 1 4 100 oneTenth
          = .returned (.slashed (NewDec (-10)))
              (burnValidatorTokens k sampleContext overcreditedScanned sampleValidator
                (NewDec (-10))))
    ∧ (∀ remaining tokens : Dec, ZeroDec ≤ tokens →
        (ZeroDec ≤ MinDec remaining tokens ↔ ZeroDec ≤ remaining)) := by
  refine ⟨?_, ?_, ?_⟩
  · decide
  · intro k hk
    rw [Slash_past_eq_slashOverEntries k sampleContext sampleState 1 4 100 oneTenth
      sampleValidator (by decide) hk (by decide) (by decide)]
    rfl
  · intro remaining tokens htokens
    have h0 : (0 : Int) ≤ tokens.raw := htokens
    simp only [Dec.le_def, MinDec_raw, ZeroDec]
    omega

end Stake

namespace SdkTypes

/-- C20, the code at the failing input: `WithDefaultCodespace` gives the codespace `cs` to
every error, also to one whose codespace is set: the error of codespace `CodespaceRoot`
comes back with codespace 7, where the default should have left `CodespaceRoot`; the code
and the message are kept. -/
theorem WithDefaultCodespace_overrides_a_set_codespace :
    (∀ (err : sdkError) (cs : CodespaceType),
      (err.WithDefaultCodespace cs).Codespace = cs
        ∧ (err.WithDefaultCodespace cs).Code = err.Code
        ∧ (err.WithDefaultCodespace cs).cmnError = err.cmnError)
    ∧ rootError.Codespace ≠ CodespaceUndefined
    ∧ (rootError.WithDefaultCodespace 7).Codespace = 7
    ∧ defaultedCodespace rootError 7 = CodespaceRoot
    ∧ (rootError.WithDefaultCodespace 7).Codespace ≠ defaultedCodespace rootError 7 :=
  ⟨fun _ _ => ⟨rfl, rfl, rfl⟩, by decide, by decide, by decide, by decide⟩


/-! ## `ToABCICode` and `parseCmnError` -/

theorem shift_or_eq (space code : Nat) (hs : space < 65536) (hc : code < 65536) :
    (((space % 4294967296) <<< 16) % 4294967296) ||| (code % 4294967296)
      = space * 65536 + code := by
  have h1 : space % 4294967296 = space := Nat.mod_eq_of_lt (by omega)
  have h2 : code % 4294967296 = code := Nat.mod_eq_of_lt (by omega)
  have h3 : space <<< 16 = space * 65536 := by
    rw [Nat.shiftLeft_eq]
  have h4 : (space * 65536) % 4294967296 = space * 65536 := Nat.mod_eq_of_lt (by omega)
  rw [h1, h2, h3, h4]
  have hor := Nat.mul_add_lt_is_or (i := 16) (b := code) (by omega) space
  have hpow : (2 : Nat) ^ 16 = 65536 := by norm_num
  rw [hpow] at hor
  rw [Nat.mul_comm space 65536, ← hor]

theorem ToABCICode_eq (space : CodespaceType) (code : CodeType)
    (hs : space < 65536) (hc : code < 65536) :
    ToABCICode space code
      = if space = CodespaceRoot ∧ code = CodeOK then 0 else space * 65536 + code := by
  unfold ToABCICode ABCICodeOK
  split
  · rfl
  · exact shift_or_eq space code hs hc

theorem abci_value_lt (s c : Nat) (hs : s < 65536) (hc : c < 65536) :
    s * 65536 + c < 4294967296 := by
  omega

theorem abci_value_zero (s c : Nat) (h : s * 65536 + c = 0) : s = 0 ∧ c = 0 := by
  omega

theorem abci_value_injective (s c s2 c2 : Nat) (hc : c < 65536) (hc2 : c2 < 65536)
    (h : s * 65536 + c = s2 * 65536 + c2) : s = s2 ∧ c = c2 := by
  omega

/-- C22: for a codespace and a code in the range of `uint16`, `ToABCICode` is 0
(`ABCICodeOK`) for (`CodespaceRoot`, `CodeOK`) and `space * 2^16 + code`, a value below
`2^32`, otherwise; so `IsOK` holds exactly when the code is `CodeOK` and the codespace is
`CodespaceRoot` or `CodespaceUndefined`, and two pairs other than
(`CodespaceRoot`, `CodeOK`) with the same `ToABCICode` are equal. -/
theorem ToABCICode_value_and_injectivity
    (space : CodespaceType) (code : CodeType)
    (hspace : space < 2 ^ 16) (hcode : code < 2 ^ 16) :
    (space = CodespaceRoot ∧ code = CodeOK → ToABCICode space code = ABCICodeOK)
    ∧ (¬ (space = CodespaceRoot ∧ code = CodeOK) →
        ToABCICode space code = space * 2 ^ 16 + code)
    ∧ ToABCICode space code < 2 ^ 32
    ∧ ((ToABCICode space code).IsOK = true
        ↔ code = CodeOK ∧ (space = CodespaceRoot ∨ space = CodespaceUndefined))
    ∧ (∀ (space2 : CodespaceType) (code2 : CodeType),
        space2 < 2 ^ 16 → code2 < 2 ^ 16 →
        ¬ (space = CodespaceRoot ∧ code = CodeOK) →
        ¬ (space2 = CodespaceRoot ∧ code2 = CodeOK) →
        ToABCICode space code = ToABCICode space2 code2 →
        space = space2 ∧ code = code2) := by
  have hs : space < 65536 := hspace
  have hc : code < 65536 := hcode
  have heq := ToABCICode_eq space code hs hc
  refine ⟨?_, ?_, ?_, ?_, ?_⟩
  · intro h
    rw [heq, if_pos h]
    rfl
  · intro h
    rw [heq, if_neg h]
    rfl
  · rw [heq]
    split
    · exact Nat.zero_lt_succ _
    · exact abci_value_lt space code hs hc
  · unfold ABCICodeType.IsOK ABCICodeOK
    rw [heq]
    split
    · rename_i h
      simp [h.1, h.2]
    · rename_i h
      constructor
      · intro hok
        have hz : space * 65536 + code = 0 := by
          by_contra hne
          simp [hne] at hok
        have hz2 := abci_value_zero space code hz
        exact ⟨hz2.2, Or.inr hz2.1⟩
      · intro hcs
        rcases hcs with ⟨hc0, hs1 | hs0⟩
        · exact (h ⟨hs1, hc0⟩).elim
        · rw [hc0, hs0]
          rfl
  · intro space2 code2 hspace2 hcode2 h1 h2 hsame
    have hs2 : space2 < 65536 := hspace2
    have hc2 : code2 < 65536 := hcode2
    rw [heq, ToABCICode_eq space2 code2 hs2 hc2, if_neg h1, if_neg h2] at hsame
    exact abci_value_injective space code space2 code2 hc hc2 hsame

/-- C22 on the pairs (2, 5) and (0, 0): the first gives `2 * 2^16 + 5`, the second is the
pair of `CodespaceUndefined` and `CodeOK`, which is OK without being
(`CodespaceRoot`, `CodeOK`). -/
theorem ToABCICode_value_and_injectivity_witness :
    (2 : Nat) < 2 ^ 16 ∧ (5 : Nat) < 2 ^ 16
    ∧ ToABCICode 2 5 = 131077
    ∧ ToABCICode CodespaceRoot CodeOK = ABCICodeOK
    ∧ (ToABCICode CodespaceUndefined CodeOK).IsOK = true
    ∧ ToABCICode 2 5 = 2 * 2 ^ 16 + 5 :=
  ⟨by decide, by decide, by decide, by decide, by decide,
    (ToABCICode_value_and_injectivity 2 5 (by decide) (by decide)).2.1 (by decide)⟩

theorem stringsIndex_bounds (b : Nat) :
    ∀ s : GoString, stringsIndex s b = -1
      ∨ (0 ≤ stringsIndex s b ∧ stringsIndex s b < (s.length : Int)) := by
  intro s
  induction s with
  | nil => exact Or.inl rfl
  | cons x xs ih =>
    unfold stringsIndex
    by_cases hx : x = b
    · right
      simp only [hx, if_true, List.length_cons]
      omega
    · simp only [hx, if_false]
      rcases ih with h | h
      · left
        simp [h]
      · right
        have hne : stringsIndex xs b ≠ -1 := by omega
        simp only [hne, if_false, List.length_cons]
        push_cast
        omega

/-- C23, as stated, fails: on the string `{`, and on `abc{`, whose first `{` is the last
byte, `parseCmnError` evaluates a slice with a low bound above the high bound and panics,
where the claim has it return the empty text. It returns a string without `{` unchanged,
and the text between the first `{` and the last byte when that `{` is not the last byte;
it panics on every string whose first `{` is the last byte, and on no other. -/
theorem parseCmnError_panics_on_a_trailing_brace :
    parseCmnError [123] = none
    ∧ parseCmnError [97, 98, 99, 123] = none
    ∧ parseCmnError [69, 114, 114, 111, 114, 123, 109, 115, 103, 125] = some [109, 115, 103]
    ∧ parseCmnError [97, 98] = some [97, 98]
    ∧ (∀ err : GoString, stringsIndex err openBrace = -1 → parseCmnError err = some err)
    ∧ (∀ err : GoString, stringsIndex err openBrace ≠ -1 →
        stringsIndex err openBrace < (err.length : Int) - 1 →
        parseCmnError err
          = some ((err.take (err.length - 1)).drop
              ((stringsIndex err openBrace).toNat + 1)))
    ∧ (∀ err : GoString, stringsIndex err openBrace ≠ -1 →
        stringsIndex err openBrace = (err.length : Int) - 1 →
        parseCmnError err = none)
    ∧ (∀ err : GoString, parseCmnError err = none
        ↔ (stringsIndex err openBrace ≠ -1
          ∧ stringsIndex err openBrace = (err.length : Int) - 1)) := by
  have hnone : ∀ err : GoString, stringsIndex err openBrace ≠ -1 →
      stringsIndex err openBrace = (err.length : Int) - 1 → parseCmnError err = none := by
    intro err hidx hlast
    unfold parseCmnError sliceExpr
    simp only [hidx, ne_eq, not_false_eq_true, if_true]
    rw [if_neg]
    omega
  have hsome : ∀ err : GoString, stringsIndex err openBrace ≠ -1 →
      stringsIndex err openBrace < (err.length : Int) - 1 →
      parseCmnError err
        = some ((err.take (err.length - 1)).drop
            ((stringsIndex err openBrace).toNat + 1)) := by
    intro err hidx hlt
    have hb := stringsIndex_bounds openBrace err
    have h0 : 0 ≤ stringsIndex err openBrace := by omega
    unfold parseCmnError sliceExpr
    simp only [hidx, ne_eq, not_false_eq_true, if_true]
    rw [if_pos (by omega)]
    have e1 : ((err.length : Int) - 1).toNat = err.length - 1 := by omega
    have e2 : (stringsIndex err openBrace + 1).toNat
        = (stringsIndex err openBrace).toNat + 1 := by omega
    rw [e1, e2]
  refine ⟨by decide, by decide, by decide, by decide, ?_, hsome, hnone, ?_⟩
  · intro err hidx
    unfold parseCmnError
    simp [hidx]
  · intro err
    constructor
    · intro hpanic
      have hb := stringsIndex_bounds openBrace err
      by_cases hidx : stringsIndex err openBrace = -1
      · unfold parseCmnError at hpanic
        simp [hidx] at hpanic
      · refine ⟨hidx, ?_⟩
        by_contra hne
        have hlt : stringsIndex err openBrace < (err.length : Int) - 1 := by omega
        rw [hsome err hidx hlt] at hpanic
        cases hpanic
    · intro h
      exact hnone err h.1 h.2

theorem parseCmnError_of_no_brace (err : GoString)
    (hidx : stringsIndex err openBrace = -1) : parseCmnError err = some err := by
  unfold parseCmnError
  simp [hidx]

theorem parseCmnError_of_inner_brace (err : GoString)
    (hidx : stringsIndex err openBrace ≠ -1)
    (hlt : stringsIndex err openBrace < (err.length : Int) - 1) :
    parseCmnError err
      = some ((err.take (err.length - 1)).drop ((stringsIndex err openBrace).toNat + 1)) := by
  have hb := stringsIndex_bounds openBrace err
  have h0 : 0 ≤ stringsIndex err openBrace := by omega
  unfold parseCmnError sliceExpr
  simp only [hidx, ne_eq, not_false_eq_true, if_true]
  rw [if_pos (by omega)]
  have e1 : ((err.length : Int) - 1).toNat = err.length - 1 := by omega
  have e2 : (stringsIndex err openBrace + 1).toNat
      = (stringsIndex err openBrace).toNat + 1 := by omega
  rw [e1, e2]

theorem stringsIndex_cmnErrorText (msg : GoString) :
    stringsIndex (cmnErrorText msg) openBrace = 5 := by
  simp [cmnErrorText, stringsIndex, openBrace]

theorem parseCmnError_cmnErrorText (msg : GoString) :
    parseCmnError (cmnErrorText msg) = some msg := by
  have hidx := stringsIndex_cmnErrorText msg
  have hlen : (cmnErrorText msg).length = msg.length + 7 := by
    simp [cmnErrorText]
  rw [parseCmnError_of_inner_brace (cmnErrorText msg) (by omega) (by omega), hidx, hlen]
  simp [cmnErrorText]

/-- C23, amended: `parseCmnError` returns a string without `{` unchanged; and for a string
whose first `{` is not the last byte it returns, without a slice-bounds failure, the text
strictly between the first `{` and the final byte. Every text of the shape `Error{msg}`,
which is what the callers pass, is such a string, with its first `{` at index 5, and
`parseCmnError` returns `msg` on it. -/
theorem parseCmnError_returns_the_text_in_braces (err : GoString)
    (hinner : stringsIndex err openBrace = -1
      ∨ stringsIndex err openBrace < (err.length : Int) - 1) :
    (stringsIndex err openBrace = -1 → parseCmnError err = some err)
    ∧ (stringsIndex err openBrace ≠ -1 →
        parseCmnError err
          = some ((err.take (err.length - 1)).drop
              ((stringsIndex err openBrace).toNat + 1)))
    ∧ (∃ out, parseCmnError err = some out)
    ∧ (∀ msg : GoString,
        stringsIndex (cmnErrorText msg) openBrace = 5
          ∧ stringsIndex (cmnErrorText msg) openBrace
              < ((cmnErrorText msg).length : Int) - 1
          ∧ parseCmnError (cmnErrorText msg) = some msg) := by
  refine ⟨parseCmnError_of_no_brace err, ?_, ?_, ?_⟩
  · intro hidx
    exact parseCmnError_of_inner_brace err hidx (hinner.resolve_left hidx)
  · by_cases hidx : stringsIndex err openBrace = -1
    · exact ⟨err, parseCmnError_of_no_brace err hidx⟩
    · exact ⟨_, parseCmnError_of_inner_brace err hidx (hinner.resolve_left hidx)⟩
  · intro msg
    have hidx := stringsIndex_cmnErrorText msg
    have hlen : (cmnErrorText msg).length = msg.length + 7 := by
      simp [cmnErrorText]
    refine ⟨hidx, ?_, parseCmnError_cmnErrorText msg⟩
    omega

/-- C23, amended, on the text `Error{msg}`: the first `{` is at index 5, not at the last
index 9, and `parseCmnError` returns `msg`. -/
theorem parseCmnError_returns_the_text_in_braces_witness :
    (stringsIndex (cmnErrorText [109, 115, 103]) openBrace = -1
      ∨ stringsIndex (cmnErrorText [109, 115, 103]) openBrace
          < ((cmnErrorText [109, 115, 103]).length : Int) - 1)
    ∧ cmnErrorText [109, 115, 103] = [69, 114, 114, 111, 114, 123, 109, 115, 103, 125]
    ∧ stringsIndex (cmnErrorText [109, 115, 103]) openBrace = 5
    ∧ parseCmnError (cmnErrorText [109, 115, 103]) = some [109, 115, 103] :=
  ⟨by decide, by decide, by decide,
    ((parseCmnError_returns_the_text_in_braces (cmnErrorText [109, 115, 103])
      (by decide)).2.1 (by decide)).trans (by decide)⟩

end SdkTypes
